import Mathlib

set_option autoImplicit false

/-!
Verification development for the cppscratch repository.

The development shallowly embeds the two subsystems the claims are about:

* the per-quadrature-point value store (`src/valuer.h`: `Location`, `QpKey`,
  `ValueStore` = `QpStore`) together with the `LambdaVarValuer` of
  `src/moose.h`, and
* the dependency-graph scheduler (`src/depsolver/graph.h` and
  `src/depsolver/graph.cc`: `Node::needs`, `Node::clearDeps`, `Node::loop`,
  `canMerge`).

C++ machine integers are modelled by `Nat`/`Int` (the programs in question
never overflow them on the inputs considered), C++ `std::map`s by
association lists or by total functions with the map's default value,
exceptions by `Except`, and the unbounded recursion of the store's `get`
by an explicit fuel parameter whose exhaustion is a distinguished marker
(`outOfFuel`) standing for non-termination of the C++ recursion.
-/

namespace Spec2Proof


/-! ### Locations (src/valuer.h, class Location)

`custom` holds the optional user Value used for key sorting; its virtual
`lessThan` is passed around as an explicit function (`clt`) below, the way
C++ virtual dispatch supplies it.  The default `Value::lessThan`
implementation returns `false` for every pair. -/

structure Location where
  nqp : Nat
  qp : Nat
  elem_id : Nat
  block_id : Nat
  face_id : Nat
  custom : Option Int
deriving DecidableEq

/-- src/valuer.h:122-125, `operator!=(const Location&, const Location&)`:
compares only `elem_id`, `face_id` and `qp`. -/
def locNe (lhs rhs : Location) : Bool :=
  lhs.elem_id != rhs.elem_id || lhs.face_id != rhs.face_id || lhs.qp != rhs.qp

/-- src/valuer.h:141-148, `QpKey::operator()`.  `clt` is the `lessThan`
virtual of the custom Value; the default implementation is
`fun _ _ => false`. -/
def qpKeyLt (clt : Int → Int → Bool) (lhs rhs : Location) : Bool :=
  (lhs.elem_id != rhs.elem_id && lhs.elem_id < rhs.elem_id) ||
  (lhs.face_id != rhs.face_id && lhs.face_id < rhs.face_id) ||
  (lhs.qp != rhs.qp && lhs.qp < rhs.qp) ||
  (lhs.custom.isSome && rhs.custom.isSome &&
    clt (lhs.custom.getD 0) (rhs.custom.getD 0)) ||
  (lhs.custom.isSome && rhs.custom.isNone)

/-- The default `Value::lessThan` (src/valuer.h:43) returns false. -/
def defaultLessThan : Int → Int → Bool := fun _ _ => false

/-! ### LambdaVarValuer (src/moose.h:38-65)

Its mutable state is the cached `_prev_loc` and the variable `*_var` the
bound lambda writes through.  `lambdaVarGet` returns the value, whether the
lambda was invoked, and the new state. -/

structure LVState where
  prevLoc : Option Location
  var : Int

/-- src/moose.h:49-57, `LambdaVarValuer::get`: recompute only when there is
no previous location or `*_prev_loc != loc` (which uses `locNe`). -/
def lambdaVarGet (func : Location → Int) (st : LVState) (loc : Location) :
    Int × Bool × LVState :=
  match st.prevLoc with
  | none => (func loc, true, ⟨some loc, func loc⟩)
  | some p =>
    if locNe p loc then (func loc, true, ⟨some loc, func loc⟩)
    else (st.var, false, st)

/-- src/moose.h:59, `LambdaVarValuer::shift` resets the cached location. -/
def lambdaVarShift (st : LVState) : LVState := ⟨none, st.var⟩

/-! ### Loop types (src/depsolver/graph.h:67-98) -/

inductive LoopCategory where
  | None
  | Nodal
  | Face
  | Elemental_onElem
  | Elemental_onElemFV
  | Elemental_onBoundary
  | Elemental_onInternalSide
deriving DecidableEq

structure LoopType where
  block : Int
  category : LoopCategory
deriving DecidableEq

/-- src/depsolver/graph.h:83-86, `LoopType::operator==`: componentwise. -/
def ltEq (a b : LoopType) : Bool :=
  decide (b.block = a.block) && decide (b.category = a.category)

/-- src/depsolver/graph.h:87-90, `LoopType::operator!=`. -/
def ltNe (a b : LoopType) : Bool := !(ltEq a b)

/-! ### The meta-graph used by `canMerge`

`canMerge` receives two nodes of the partition meta-graph built by
`mergeSiblings`; each node carries a `LoopType` and the set of nodes that
depend on it (`_dependers`).  Nodes are identified by dense indices (C++
pointer identity).  Transitive dependership — `Node::isDepender` in
src/depsolver/graph.h:166-229 (a visited-marking DFS over `_dependers`) and
the precomputed `_transitive_dependers` set read by `Node::dependsOn` in
src/depsolver/graph.cc:41-44 — is modelled by the same fuel-bounded DFS. -/

structure MGraph where
  lts : List LoopType
  dependers : List (List Nat)

def MGraph.ltOf (g : MGraph) (i : Nat) : LoopType :=
  g.lts.getD i ⟨0, LoopCategory.Elemental_onElem⟩

def MGraph.dependersOf (g : MGraph) (i : Nat) : List Nat :=
  g.dependers.getD i []

/-- DFS of src/depsolver/graph.h:217-229 (`isDependerInner`): visit-mark the
current node, succeed when `tgt` is a direct depender, otherwise recurse
into the dependers.  The visited set is threaded; fuel bounds the recursion
(the C++ walk is bounded by the finite node storage). -/
def idepInner (g : MGraph) : Nat → Nat → Nat → List Nat → Bool × List Nat
  | 0, _, _, visited => (false, visited)
  | fuel + 1, cur, tgt, visited =>
    if cur ∈ visited then (false, visited)
    else
      let visited := cur :: visited
      if tgt ∈ g.dependersOf cur then (true, visited)
      else
        (g.dependersOf cur).foldl
          (fun acc d => if acc.1 then acc else idepInner g fuel d tgt acc.2)
          (false, visited)

/-- src/depsolver/graph.h:166-170, `Node::isDepender`: clear visit marks and
walk.  `isDependerB g a b` = "b transitively depends on a". -/
def isDependerB (g : MGraph) (a b : Nat) : Bool :=
  (idepInner g (g.lts.length + 1) a b []).1

/-- The dependency disjunct of `canMerge`: graph.h checks
`a->isDepender(b) || b->isDepender(a)`, graph.cc checks
`a->dependsOn(b) || b->dependsOn(a)`; both are "one of the two transitively
depends on the other". -/
def dependsEitherB (g : MGraph) (a b : Nat) : Bool :=
  isDependerB g a b || isDependerB g b a

/-- The `mergeable` table shared by both drafts of `canMerge`
(src/depsolver/graph.h:462-470 and src/depsolver/graph.cc:12-20):
per-category lists of the categories each one can merge with. -/
def mergeClassList : LoopCategory → List LoopCategory
  | .None => [.None]
  | .Nodal => [.Nodal]
  | .Face => [.Face]
  | .Elemental_onElem =>
    [.Elemental_onElem, .Elemental_onElemFV, .Elemental_onBoundary,
     .Elemental_onInternalSide]
  | .Elemental_onElemFV =>
    [.Elemental_onElem, .Elemental_onElemFV, .Elemental_onBoundary,
     .Elemental_onInternalSide]
  | .Elemental_onBoundary =>
    [.Elemental_onElem, .Elemental_onElemFV, .Elemental_onBoundary,
     .Elemental_onInternalSide]
  | .Elemental_onInternalSide =>
    [.Elemental_onElem, .Elemental_onElemFV, .Elemental_onBoundary,
     .Elemental_onInternalSide]

/-- `mergeable[a].count(b) > 0` of the C++ drafts. -/
def mergeableB (a b : LoopCategory) : Bool := (mergeClassList a).contains b

/-- src/depsolver/graph.h:459-479, `canMerge` (header draft): no block
condition. -/
def canMergeH (g : MGraph) (a b : Nat) : Bool :=
  if a = b then false
  else if !(mergeableB (g.ltOf a).category (g.ltOf b).category) then false
  else if dependsEitherB g a b then false
  else true

/-- src/depsolver/graph.cc:9-31, `canMerge` (cc draft): additionally
requires the two loop types to have the same block. -/
def canMergeCC (g : MGraph) (a b : Nat) : Bool :=
  if a = b then false
  else if !(mergeableB (g.ltOf a).category (g.ltOf b).category) then false
  else if (g.ltOf a).block ≠ (g.ltOf b).block then false
  else if dependsEitherB g a b then false
  else true

/-- The merge classes named by the claim: None, Nodal and Face are
singletons, the four Elemental categories form one class. -/
def mergeClassIdx : LoopCategory → Nat
  | .None => 0
  | .Nodal => 1
  | .Face => 2
  | _ => 3

/-- The claim's characterisation of `canMerge`, written from its words:
distinct nodes, same merge class, no dependency either way. -/
def canMergeClaim (g : MGraph) (a b : Nat) : Bool :=
  decide (a ≠ b) &&
  decide (mergeClassIdx (g.ltOf a).category = mergeClassIdx (g.ltOf b).category) &&
  !(dependsEitherB g a b)

/-! ### Loop numbering (src/depsolver/graph.h:137-158 `Node::loop`,
src/depsolver/graph.cc:81-142 `Node::loop`/`Node::loopInner`)

A dependency graph node carries its loop type, its reducing flag and its
dependers (the nodes that depend on it).  Both drafts compute the same
recurrence; graph.h recomputes recursively on every call, graph.cc memoizes
(`_loop`, reset by `prepare()`).  The recursion of `loop()` is modelled with
fuel; for an acyclic graph (witnessed by a rank function decreasing along
depender edges) the value is fuel-independent once the fuel exceeds the
rank, and `nodeLoop` fixes the fuel at the node count.

`loopF` mirrors the C++ body: `maxloop` is seeded with the first depender's
loop number, then every depender (the first one again included) raises it to
`loop(dep) + 1` when the depender's loop type differs or this node is
reducing, and to `loop(dep)` otherwise. -/

structure DNode where
  lt : LoopType
  reducing : Bool
  dependers : List Nat

structure DGraph where
  nodes : List DNode

def DGraph.size (g : DGraph) : Nat := g.nodes.length

def DGraph.ltOfN (g : DGraph) (i : Nat) : LoopType :=
  (g.nodes.getD i ⟨⟨0, .Elemental_onElem⟩, false, []⟩).lt

def DGraph.reducingOfN (g : DGraph) (i : Nat) : Bool :=
  (g.nodes.getD i ⟨⟨0, .Elemental_onElem⟩, false, []⟩).reducing

def DGraph.dependersOfN (g : DGraph) (i : Nat) : List Nat :=
  (g.nodes.getD i ⟨⟨0, .Elemental_onElem⟩, false, []⟩).dependers

def loopF (g : DGraph) : Nat → Nat → Nat
  | 0, _ => 0
  | fuel + 1, n =>
    match g.dependersOfN n with
    | [] => 0
    | d :: ds =>
      (d :: ds).foldl
        (fun m dep =>
          if ltNe (g.ltOfN dep) (g.ltOfN n) || g.reducingOfN n then
            (if loopF g fuel dep + 1 > m then loopF g fuel dep + 1 else m)
          else
            (if loopF g fuel dep > m then loopF g fuel dep else m))
        (loopF g fuel d)

def nodeLoop (g : DGraph) (n : Nat) : Nat := loopF g g.size n

def floopSpec (g : DGraph) (n d : Nat) : Nat :=
  if ltNe (g.ltOfN d) (g.ltOfN n) || g.reducingOfN n then nodeLoop g d + 1
  else nodeLoop g d

def RankOk (g : DGraph) (r : Nat → Nat) : Prop :=
  (∀ m, m < g.size → ∀ d ∈ g.dependersOfN m, d < g.size ∧ r d < r m) ∧
  (∀ m, m < g.size → r m < g.size)

def exG3 : DGraph :=
  ⟨[⟨⟨0, .Elemental_onElem⟩, false, []⟩,
    ⟨⟨0, .Elemental_onElem⟩, true, [0]⟩,
    ⟨⟨0, .Elemental_onElem⟩, false, [1]⟩]⟩

/-! ### Node edge bookkeeping (src/depsolver/graph.h:187-203, graph.cc:68)

A graph is the list of its nodes' edge sets (`_deps` and `_dependers`,
`std::set<Node*>` in C++, duplicate-free lists of indices here).
`Graph::create` appends a fresh node; `Node::needs` inserts into both edge
sets; `Node::clearDeps` clears the node's *own* two sets only. -/

structure GNode where
  deps : List Nat
  dependers : List Nat
deriving DecidableEq

/-- `std::set::insert`: add if absent. -/
def setInsert (x : Nat) (l : List Nat) : List Nat :=
  if x ∈ l then l else x :: l

abbrev EGraph := List GNode

def depsOfE (g : EGraph) (i : Nat) : List Nat := (g.getD i ⟨[], []⟩).deps

def dependersOfE (g : EGraph) (i : Nat) : List Nat := (g.getD i ⟨[], []⟩).dependers

/-- src/depsolver/graph.h:376-383, `Graph::create`: append a node with empty
edge sets (its id is its index). -/
def createOp (g : EGraph) : EGraph := g ++ [⟨[], []⟩]

/-- src/depsolver/graph.h:191-198, `Node::needs(Node *n)`:
`_deps.insert(n); n->_dependers.insert(this);` (the `assert(n != this)` is
the validity condition carried by `OpsValid` below). -/
def needsOp (g : EGraph) (a b : Nat) : EGraph :=
  (g.modify (fun nd => ⟨setInsert b nd.deps, nd.dependers⟩) a).modify
    (fun nd => ⟨nd.deps, setInsert a nd.dependers⟩) b

/-- src/depsolver/graph.h:189, `Node::clearDeps`:
`_deps.clear(); _dependers.clear();` — the node's own sets only; the
counterpart entries in its neighbours are left in place. -/
def clearDepsOp (g : EGraph) (a : Nat) : EGraph :=
  g.modify (fun _ => ⟨[], []⟩) a

inductive GOp where
  | create
  | needs (a b : Nat)
  | clearDeps (a : Nat)
deriving DecidableEq

def applyOp (g : EGraph) : GOp → EGraph
  | .create => createOp g
  | .needs a b => needsOp g a b
  | .clearDeps a => clearDepsOp g a

def applyOps (g : EGraph) : List GOp → EGraph
  | [] => g
  | op :: ops => applyOps (applyOp g op) ops

/-- Validity of an operation sequence against a running node count: `needs`
must name two existing, distinct nodes (the existence because C++ handles
come from `create`, the distinctness because of `assert(n != this)`), and
`clearDeps` an existing node. -/
def opsValidB : Nat → List GOp → Bool
  | _, [] => true
  | n, .create :: ops => opsValidB (n + 1) ops
  | n, .needs a b :: ops =>
    decide (a < n) && decide (b < n) && decide (a ≠ b) && opsValidB n ops
  | n, .clearDeps a :: ops => decide (a < n) && opsValidB n ops

/-- Whether the sequence is free of `clearDeps`. -/
def noClearB : List GOp → Bool
  | [] => true
  | .clearDeps _ :: _ => false
  | .create :: ops => noClearB ops
  | .needs _ _ :: ops => noClearB ops

/-- The mirror invariant of the claim: every forward edge has its reverse
entry and conversely, with all indices in range. -/
def Mirrored (g : EGraph) : Prop :=
  ∀ i, i < g.length →
    (∀ d ∈ depsOfE g i, d < g.length ∧ i ∈ dependersOfE g d) ∧
    (∀ d ∈ dependersOfE g i, d < g.length ∧ i ∈ depsOfE g d)

instance (g : EGraph) : Decidable (Mirrored g) := by
  unfold Mirrored
  infer_instance

/-! ### The value store (src/valuer.h, class ValueStore / QpStore)

The store state mirrors the C++ members: the name registry (`_ids`,
`_names`), the dense per-id vectors (`_valuers`, `_own_valuer`, `_mapper` —
`_have_mapper[id]` is `mappers[id].isSome`), the per-id flags (`_want_old`,
`_want_older`, `_external_curr`, as total boolean functions), the three
location-keyed value maps (`_curr_vals`, `_old_vals`, `_older_vals`,
keyed by the (elem_id, face_id, qp) triple that `QpKey` compares), the
`_errcheck` flag and the cycle stack (`_cycle_stack`; its always-present
back frame is `cycleTop`, the remainder `cycleRest`).

Two instrumentation fields record events the claims speak about without
changing behaviour: `invokeLog` appends, at each valuer invocation, the id
and whether it was a member of the top in-flight frame at that moment, and
`shiftCounts` counts the shift-hook broadcasts per registered valuer.

A valuer (`Valuer<T>` subclass) is a `VSpec`: its C++ type (hash code) as a
tag, its `get` body, and its `initialOld`/`initialOlder` functions.  Bodies
cover the valuer shapes the repository drives the store with: a pure
function of the location (LambdaValuer, ConstQpValuer) or a value computed
from another id's current value (DepQpValuer).

The C++ `get`/`getStored` recursion is modelled with explicit fuel;
`outOfFuel` marks a computation that exceeds the bound (the C++ code would
simply keep recursing).  Exceptions are `Except.error`; on an error the
C++ store's partially mutated state escapes with the exception, which the
claims never inspect, so errors carry no state. -/

abbrev LKey := Nat × Nat × Nat

def lkey (loc : Location) : LKey := (loc.elem_id, loc.face_id, loc.qp)

abbrev LocMap := List (LKey × Int)

def lmGet (k : LKey) : LocMap → Option Int
  | [] => none
  | (k', v) :: rest => if k' = k then some v else lmGet k rest

def lmInsert (k : LKey) (v : Int) : LocMap → LocMap
  | [] => [(k, v)]
  | (k', v') :: rest =>
    if k' = k then (k, v) :: rest else (k', v') :: lmInsert k v rest

inductive VBody where
  | func (f : Location → Int)
  | dep1 (j : Nat) (tj : Nat) (comb : Location → Int → Int)

structure VSpec where
  ty : Nat
  body : VBody
  iOld : Location → Int
  iOlder : Location → Int

structure Store where
  names : List String
  ids : List (String × Nat)
  valuers : List (Option VSpec)
  ownValuer : List Bool
  mappers : List (Option (Location → Nat))
  wantOld : Nat → Bool
  wantOlder : Nat → Bool
  externalCurr : Nat → Bool
  currVals : Nat → LocMap
  oldVals : Nat → LocMap
  olderVals : Nat → LocMap
  errcheck : Bool
  cycleTop : List Nat
  cycleRest : List (List Nat)
  invokeLog : List (Nat × Bool)
  shiftCounts : List Nat

def noName : String := ""

def Store.mapperAt (s : Store) (i : Nat) : Option (Location → Nat) :=
  s.mappers.getD i none

def Store.valuerAt (s : Store) (i : Nat) : Option VSpec :=
  s.valuers.getD i none

def Store.nameAt (s : Store) (i : Nat) : String :=
  s.names.getD i noName

def finsert (i : Nat) : List Nat → List Nat
  | [] => [i]
  | j :: t => if i < j then i :: j :: t else if i = j then j :: t else j :: finsert i t

def pushTop (i : Nat) (s : Store) : Store :=
  { s with cycleTop := finsert i s.cycleTop }

def pushTopIf (i : Nat) (s : Store) : Store :=
  if s.errcheck then pushTop i s else s

def eraseTop (i : Nat) (s : Store) : Store :=
  { s with cycleTop := s.cycleTop.erase i }

def pushFrame (s : Store) : Store :=
  { s with cycleTop := [], cycleRest := s.cycleTop :: s.cycleRest }

def popFrame (s : Store) : Store :=
  { s with cycleTop := s.cycleRest.headD [], cycleRest := s.cycleRest.tail }

def logInvoke (i : Nat) (s : Store) : Store :=
  { s with invokeLog := s.invokeLog ++ [(i, decide (i ∈ s.cycleTop))] }

def setExt (i : Nat) (b : Bool) (s : Store) : Store :=
  { s with externalCurr := fun j => if j = i then b else s.externalCurr j }

def stageCurr (i : Nat) (k : LKey) (v : Int) (s : Store) : Store :=
  { s with currVals := fun j => if j = i then lmInsert k v (s.currVals j) else s.currVals j }

def setWant (wSel : Bool) (i : Nat) (s : Store) : Store :=
  if wSel then { s with wantOlder := fun j => if j = i then true else s.wantOlder j }
  else { s with wantOld := fun j => if j = i then true else s.wantOld j }

def whichVals (wSel : Bool) (s : Store) (i : Nat) : LocMap :=
  if wSel then s.olderVals i else s.oldVals i

inductive VErr where
  | outOfFuel
  | badId (i : Nat)
  | cyclicDep (reused : String) (members : List String)
  | typeMismatch (tyValuer tyReq : Nat)
deriving DecidableEq

abbrev Res := Except VErr (Int × Store)

def getPost (i : Nat) (k : LKey) (v : Int) (s2 : Store) : Res :=
  let s3 := setExt i true s2
  let s4 := if s3.wantOld i || s3.wantOlder i then stageCurr i k v s3 else s3
  .ok (v, if s4.errcheck then eraseTop i s4 else s4)

def getF : Nat → Store → Nat → Nat → Location → Res
  | 0, _, _, _, _ => .error .outOfFuel
  | fuel + 1, s, ty, i, loc =>
    match s.mapperAt i with
    | some m => getF fuel s ty (m loc) loc
    | none =>
      match s.valuerAt i with
      | none => .error (.badId i)
      | some vs =>
        if s.errcheck = true ∧ i ∈ s.cycleTop then
          .error (.cyclicDep (s.nameAt i) (s.cycleTop.map s.nameAt))
        else if s.errcheck = true ∧ ty ≠ vs.ty then
          .error (.typeMismatch vs.ty ty)
        else
          match vs.body with
          | .func f => getPost i (lkey loc) (f loc) (logInvoke i (pushTopIf i s))
          | .dep1 j tj comb =>
            match getF fuel (logInvoke i (pushTopIf i s)) tj j loc with
            | .error e => .error e
            | .ok (v, s2) => getPost i (lkey loc) (comb loc v) s2

def pushFrameIf (s : Store) : Store :=
  if s.errcheck then pushFrame s else s

def popFrameIf (s : Store) : Store :=
  if s.errcheck then popFrame s else s

def finishStored (wSel : Bool) (i : Nat) (loc : Location) (older : Bool)
    (vs : VSpec) (s : Store) : Res :=
  match lmGet (lkey loc) (whichVals wSel (popFrameIf s) i) with
  | some v => .ok (v, popFrameIf s)
  | none => .ok ((if older then vs.iOlder loc else vs.iOld loc), popFrameIf s)

def getStoredF : Nat → Store → Bool → Nat → Nat → Location → Bool → Res
  | 0, _, _, _, _, _, _ => .error .outOfFuel
  | fuel + 1, s, wSel, ty, i, loc, older =>
    match s.mapperAt i with
    | some m => getStoredF fuel s wSel ty (m loc) loc false
    | none =>
      match s.valuerAt i with
      | none => .error (.badId i)
      | some vs =>
        let s1 := pushFrameIf s
        if s.errcheck = true ∧ ty ≠ vs.ty then
          .error (.typeMismatch vs.ty ty)
        else
          let s2 := setWant wSel i s1
          if s2.externalCurr i then finishStored wSel i loc older vs s2
          else
            match getF fuel s2 ty i loc with
            | .error e => .error e
            | .ok (_, s3) => finishStored wSel i loc older vs (setExt i false s3)

def getOldF (fuel : Nat) (s : Store) (ty i : Nat) (loc : Location) : Res :=
  getStoredF fuel s false ty i loc false

def getOlderF (fuel : Nat) (s : Store) (ty i : Nat) (loc : Location) : Res :=
  getStoredF fuel s true ty i loc true

def bumpCounts : List (Option VSpec) → List Nat → List Nat
  | [], cs => cs
  | _ :: _, [] => []
  | some _ :: vsl, c :: cs => (c + 1) :: bumpCounts vsl cs
  | none :: vsl, c :: cs => c :: bumpCounts vsl cs

def shiftOp (s : Store) : Store :=
  let s1 := { s with olderVals := s.oldVals, oldVals := s.olderVals }
  let s2 := { s1 with oldVals := s1.currVals, currVals := s1.oldVals }
  { s2 with shiftCounts := bumpCounts s2.valuers s2.shiftCounts }

def idsInsert (k : String) (v : Nat) : List (String × Nat) → List (String × Nat)
  | [] => [(k, v)]
  | (k', v') :: rest =>
    if k' = k then (k, v) :: rest else (k', v') :: idsInsert k v rest

def idLookup (k : String) : List (String × Nat) → Option Nat
  | [] => none
  | (k', v) :: rest => if k' = k then some v else idLookup k rest

def addOp (s : Store) (name : String) (q : Option VSpec)
    (m : Option (Location → Nat)) (own : Bool) : Nat × Store :=
  let i := s.valuers.length
  (i, { s with
    ids := idsInsert name i s.ids
    names := s.names ++ [name]
    valuers := s.valuers ++ [q]
    ownValuer := s.ownValuer ++ [own]
    mappers := s.mappers ++ [m]
    shiftCounts := s.shiftCounts ++ [0] })

def initStore (errcheck : Bool) : Store :=
  ⟨[], [], [], [], [], fun _ => false, fun _ => false, fun _ => false,
   fun _ => [], fun _ => [], fun _ => [], errcheck, [], [], [], []⟩

def resVal : Res → Option Int
  | .ok (v, _) => some v
  | .error _ => none

def resErr : Res → Option VErr
  | .ok _ => none
  | .error e => some e

/-! Lemma layer -/

structure Pres (s s' : Store) : Prop where
  names : s'.names = s.names
  ids : s'.ids = s.ids
  valuers : s'.valuers = s.valuers
  ownValuer : s'.ownValuer = s.ownValuer
  mappers : s'.mappers = s.mappers
  wantOld : s'.wantOld = s.wantOld
  wantOlder : s'.wantOlder = s.wantOlder
  errcheck : s'.errcheck = s.errcheck
  oldVals : s'.oldVals = s.oldVals
  olderVals : s'.olderVals = s.olderVals
  shiftCounts : s'.shiftCounts = s.shiftCounts

def postState (i : Nat) (k : LKey) (v0 : Int) (s2 : Store) : Store :=
  if s2.errcheck then
    (if s2.wantOld i || s2.wantOlder i
      then eraseTop i (stageCurr i k v0 (setExt i true s2))
      else eraseTop i (setExt i true s2))
  else
    (if s2.wantOld i || s2.wantOlder i
      then stageCurr i k v0 (setExt i true s2)
      else setExt i true s2)

/-! Concrete stores used by the witnesses, counterexamples and scenarios. -/

def qLoc : Location := ⟨2, 0, 1, 0, 0, none⟩

def qVS : VSpec := ⟨0, .func (fun _ => 42), fun _ => 7, fun _ => 9⟩

def qVS2 : VSpec := ⟨0, .func (fun _ => 43), fun _ => 7, fun _ => 9⟩

def qsAdd : Store := (addOp (initStore false) ("p1") (some qVS) none true).2

def qsArm : Store := setWant false 0 qsAdd

def qsGot : Store := ((getF 5 qsArm 0 0 qLoc).toOption.getD (0, qsArm)).2

def qsS2 : Store := shiftOp (shiftOp qsGot)

def depVS (j : Nat) : VSpec :=
  ⟨0, .dep1 j 0 (fun _ v => v + 1), fun _ => 0, fun _ => 0⟩

def s7store : Store :=
  (addOp (addOp (addOp (initStore true)
      ("p1") (some (depVS 1)) none true).2
    ("p2") (some (depVS 2)) none true).2
  ("p3") (some (depVS 0)) none true).2

def qsErrAdd : Store := (addOp (initStore true) ("p1") (some qVS) none true).2

def qsMap : Store :=
  (addOp (initStore false) ("m1") none (some (fun _ => 0)) false).2

def c7s1 : Store := (addOp (initStore false) ("x") (some qVS) none false).2


/-! ### Theorems -/

/-- Claim C9: `Location::operator!=` compares only `elem_id`, `face_id` and
`qp`; two locations differing only in `block_id`, `nqp` or the custom key
compare equal, and the `LambdaVarValuer` cache therefore treats a request at
a different block but the same element/face/qp as a repeat of the previous
location (the lambda is not invoked and the cached variable is returned). -/
theorem c9_location_inequality_ignores_block :
    (∀ a b : Location,
      locNe a b = true ↔
        (a.elem_id ≠ b.elem_id ∨ a.face_id ≠ b.face_id ∨ a.qp ≠ b.qp)) ∧
    (∀ a b : Location,
      a.elem_id = b.elem_id → a.face_id = b.face_id → a.qp = b.qp →
        locNe a b = false) ∧
    (∀ (func : Location → Int) (p loc : Location) (v : Int),
      p.elem_id = loc.elem_id → p.face_id = loc.face_id → p.qp = loc.qp →
        lambdaVarGet func ⟨some p, v⟩ loc = (v, false, ⟨some p, v⟩)) := by
  refine ⟨?_, ?_, ?_⟩
  · intro a b
    simp [locNe, or_assoc]
  · intro a b h1 h2 h3
    simp [locNe, h1, h2, h3]
  · intro func p loc v h1 h2 h3
    simp [lambdaVarGet, locNe, h1, h2, h3]

/-- Witness for C9 at concrete locations: block 7 vs block 3, same
element/face/qp. -/
theorem c9_location_inequality_ignores_block_witness :
    lambdaVarGet (fun _ => 99)
        ⟨some ⟨4, 2, 5, 7, 1, none⟩, 11⟩ ⟨4, 2, 5, 3, 1, none⟩ =
      (11, false, ⟨some ⟨4, 2, 5, 7, 1, none⟩, 11⟩) :=
  (c9_location_inequality_ignores_block).2.2 (fun _ => 99)
    ⟨4, 2, 5, 7, 1, none⟩ ⟨4, 2, 5, 3, 1, none⟩ 11 rfl rfl rfl

/-- Claim C10 evaluation: the `QpKey` comparator is not asymmetric.  At
`a = (elem 1, face 0, qp 0)` and `b = (elem 0, face 0, qp 1)` (no custom
keys, the default `lessThan`), `QpKey()(a,b)` and `QpKey()(b,a)` are both
true: `a < b` through the qp disjunct while `b < a` through the elem_id
disjunct.  This violates the strict-weak-order requirement of the
`std::map`s keyed by it. -/
theorem c10_qpkey_not_asymmetric :
    qpKeyLt defaultLessThan ⟨1, 0, 1, 0, 0, none⟩ ⟨1, 1, 0, 0, 0, none⟩ = true ∧
    qpKeyLt defaultLessThan ⟨1, 1, 0, 0, 0, none⟩ ⟨1, 0, 1, 0, 0, none⟩ = true := by
  constructor <;> rfl

/-- The C++ `mergeable` table is exactly the same-merge-class relation. -/
theorem mergeableB_eq_sameClass (a b : LoopCategory) :
    mergeableB a b = decide (mergeClassIdx a = mergeClassIdx b) := by
  cases a <;> cases b <;> rfl

/-- Claim C6 (amended): the graph.h draft of `canMerge` is true iff the two
meta-nodes are distinct, their categories lie in the same merge class and
neither transitively depends on the other; the graph.cc draft additionally
requires the two loop types' blocks to be equal.  Both drafts are symmetric
and false on equal arguments. -/
theorem c6_canMerge_characterisation :
    (∀ (g : MGraph) (a b : Nat), canMergeH g a b = canMergeClaim g a b) ∧
    (∀ (g : MGraph) (a b : Nat),
      canMergeCC g a b =
        (canMergeClaim g a b && decide ((g.ltOf a).block = (g.ltOf b).block))) ∧
    (∀ (g : MGraph) (a b : Nat), canMergeH g a b = canMergeH g b a) ∧
    (∀ (g : MGraph) (a b : Nat), canMergeCC g a b = canMergeCC g b a) ∧
    (∀ (g : MGraph) (a : Nat), canMergeH g a a = false ∧ canMergeCC g a a = false) := by
  have hsym : ∀ (g : MGraph) (a b : Nat), dependsEitherB g a b = dependsEitherB g b a := by
    intro g a b
    simp [dependsEitherB, Bool.or_comm]
  have hH : ∀ (g : MGraph) (a b : Nat), canMergeH g a b = canMergeClaim g a b := by
    intro g a b
    by_cases hab : a = b
    · subst hab; simp [canMergeH, canMergeClaim]
    · simp only [canMergeH, canMergeClaim, if_neg hab, mergeableB_eq_sameClass]
      by_cases hm : mergeClassIdx (g.ltOf a).category = mergeClassIdx (g.ltOf b).category
      · by_cases hd : dependsEitherB g a b = true
        · simp [hm, hd, hab]
        · simp [hm, Bool.not_eq_true] at hd ⊢
          simp [hd, hab]
      · simp [hm, hab]
  have hCC : ∀ (g : MGraph) (a b : Nat),
      canMergeCC g a b =
        (canMergeClaim g a b && decide ((g.ltOf a).block = (g.ltOf b).block)) := by
    intro g a b
    by_cases hab : a = b
    · subst hab; simp [canMergeCC, canMergeClaim]
    · simp only [canMergeCC, canMergeClaim, if_neg hab, mergeableB_eq_sameClass]
      by_cases hm : mergeClassIdx (g.ltOf a).category = mergeClassIdx (g.ltOf b).category
      · by_cases hblk : (g.ltOf a).block = (g.ltOf b).block
        · by_cases hd : dependsEitherB g a b = true
          · simp [hm, hblk, hd, hab]
          · simp [Bool.not_eq_true] at hd
            simp [hm, hblk, hd, hab]
        · simp [hm, hblk, hab]
      · simp [hm, hab]
  have hclaim_sym : ∀ (g : MGraph) (a b : Nat),
      canMergeClaim g a b = canMergeClaim g b a := by
    intro g a b
    rw [canMergeClaim, canMergeClaim, hsym,
      decide_eq_decide.mpr (ne_comm (a := a) (b := b)),
      decide_eq_decide.mpr
        (eq_comm (a := mergeClassIdx (g.ltOf a).category)
                 (b := mergeClassIdx (g.ltOf b).category))]
  refine ⟨hH, hCC, ?_, ?_, ?_⟩
  · intro g a b
    rw [hH, hH, hclaim_sym]
  · intro g a b
    rw [hCC, hCC, hclaim_sym,
      decide_eq_decide.mpr
        (eq_comm (a := (g.ltOf a).block) (b := (g.ltOf b).block))]
  · intro g a
    constructor
    · simp [canMergeH]
    · simp [canMergeCC]

/-- Counterexample for C6 as stated: two isolated meta-nodes of category
`Elemental_onElem` on different blocks (0 and 1).  All of the claim's
conditions hold (distinct, same merge class, no dependency), yet the
graph.cc draft of `canMerge` returns false because the blocks differ. -/
theorem c6_canMerge_block_counterexample :
    canMergeClaim ⟨[⟨0, .Elemental_onElem⟩, ⟨1, .Elemental_onElem⟩], [[], []]⟩ 0 1 = true ∧
    canMergeCC ⟨[⟨0, .Elemental_onElem⟩, ⟨1, .Elemental_onElem⟩], [[], []]⟩ 0 1 = false := by
  constructor <;> rfl

theorem foldl_congr_mem {α β : Type} (l : List α) (f1 f2 : β → α → β)
    (i1 i2 : β) (hi : i1 = i2) (hf : ∀ b, ∀ x ∈ l, f1 b x = f2 b x) :
    l.foldl f1 i1 = l.foldl f2 i2 := by
  induction l generalizing i1 i2 with
  | nil => exact hi
  | cons x xs ih =>
    simp only [List.foldl_cons]
    refine ih _ _ ?_ (fun b y hy => hf b y (List.mem_cons_of_mem x hy))
    rw [hi, hf i2 x (List.mem_cons_self x xs)]

theorem loopF_stable (g : DGraph) (r : Nat → Nat) (hr : RankOk g r) :
    ∀ k n fuel1 fuel2, n < g.size → r n ≤ k → r n < fuel1 → r n < fuel2 →
      loopF g fuel1 n = loopF g fuel2 n := by
  intro k
  induction k with
  | zero =>
    intro n fuel1 fuel2 hn hk h1 h2
    obtain ⟨f1, rfl⟩ : ∃ f, fuel1 = f + 1 := ⟨fuel1 - 1, by omega⟩
    obtain ⟨f2, rfl⟩ : ∃ f, fuel2 = f + 1 := ⟨fuel2 - 1, by omega⟩
    simp only [loopF]
    cases hdeps : g.dependersOfN n with
    | nil => rfl
    | cons d ds =>
      exfalso
      have := (hr.1 n hn d (by rw [hdeps]; exact List.mem_cons_self d ds)).2
      omega
  | succ k ih =>
    intro n fuel1 fuel2 hn hk h1 h2
    obtain ⟨f1, rfl⟩ : ∃ f, fuel1 = f + 1 := ⟨fuel1 - 1, by omega⟩
    obtain ⟨f2, rfl⟩ : ∃ f, fuel2 = f + 1 := ⟨fuel2 - 1, by omega⟩
    simp only [loopF]
    cases hdeps : g.dependersOfN n with
    | nil => rfl
    | cons d ds =>
      have hmem : ∀ x ∈ d :: ds, x < g.size ∧ r x < r n := by
        intro x hx
        exact hr.1 n hn x (by rw [hdeps]; exact hx)
      have hrec : ∀ x ∈ d :: ds, loopF g f1 x = loopF g f2 x := by
        intro x hx
        obtain ⟨hxs, hxr⟩ := hmem x hx
        exact ih x f1 f2 hxs (by omega) (by omega) (by omega)
      refine foldl_congr_mem _ _ _ _ _
        (hrec d (List.mem_cons_self d ds)) ?_
      intro b x hx
      rw [hrec x hx]

theorem if_gt_eq_max (m x : Nat) : (if x > m then x else m) = max m x := by
  rcases Nat.lt_or_ge m x with h | h
  · rw [if_pos h, max_eq_right (Nat.le_of_lt h)]
  · rw [if_neg (Nat.not_lt.mpr h), max_eq_left h]

theorem foldl_max_init (l : List Nat) : ∀ i : Nat, l.foldl max i =
    max i (l.foldl max 0) := by
  induction l with
  | nil => intro i; simp
  | cons x xs ih =>
    intro i
    simp only [List.foldl_cons]
    rw [ih (max i x), ih (max 0 x), max_eq_right (Nat.zero_le x), max_assoc]

theorem le_foldl_max (l : List Nat) : ∀ x ∈ l, x ≤ l.foldl max 0 := by
  intro x hx
  induction l with
  | nil => cases hx
  | cons y ys ih =>
    simp only [List.foldl_cons]
    rw [foldl_max_init, max_eq_right (Nat.zero_le y)]
    rcases List.mem_cons.mp hx with rfl | hmem
    · exact le_max_left _ _
    · exact Nat.le_trans (ih hmem) (le_max_right _ _)

/-- Claim C3: for every node `n` of an acyclic dependency graph (acyclicity
witnessed by a rank function decreasing along depender edges), `loop n = 0`
when `n` has no dependers, and otherwise `loop n` is the maximum over
dependers `d` of `loop d + 1` when `d`'s loop type differs from `n`'s or `n`
is reducing, and of `loop d` otherwise. -/
theorem c3_loop_recurrence (g : DGraph) (r : Nat → Nat) (n : Nat)
    (hr : RankOk g r) (hn : n < g.size) :
    (g.dependersOfN n = [] → nodeLoop g n = 0) ∧
    (g.dependersOfN n ≠ [] →
      nodeLoop g n = ((g.dependersOfN n).map (floopSpec g n)).foldl max 0) := by
  obtain ⟨s, hs⟩ : ∃ s, g.size = s + 1 := ⟨g.size - 1, by omega⟩
  constructor
  · intro hdeps
    rw [nodeLoop, hs]
    simp only [loopF]
    rw [hdeps]
  · intro hne
    rw [nodeLoop, hs]
    simp only [loopF]
    cases hdeps : g.dependersOfN n with
    | nil => exact absurd hdeps hne
    | cons d ds =>
      have hmem : ∀ x ∈ d :: ds, x < g.size ∧ r x < r n := by
        intro x hx
        exact hr.1 n hn x (by rw [hdeps]; exact hx)
      have hstab : ∀ x ∈ d :: ds, loopF g s x = nodeLoop g x := by
        intro x hx
        obtain ⟨hxs, hxr⟩ := hmem x hx
        have hrn : r n < g.size := hr.2 n hn
        exact loopF_stable g r hr g.size x s g.size hxs (by omega)
          (by omega) (hr.2 x hxs)
      -- convert the fold body to max of the spec function
      have hbody : ∀ b, ∀ x ∈ d :: ds,
          (fun m dep =>
            if ltNe (g.ltOfN dep) (g.ltOfN n) || g.reducingOfN n then
              (if loopF g s dep + 1 > m then loopF g s dep + 1 else m)
            else
              (if loopF g s dep > m then loopF g s dep else m)) b x =
          max b (floopSpec g n x) := by
        intro b x hx
        simp only [floopSpec]
        by_cases hc : (ltNe (g.ltOfN x) (g.ltOfN n) || g.reducingOfN n) = true
        · rw [if_pos hc, if_pos hc, if_gt_eq_max, hstab x hx]
        · rw [if_neg hc, if_neg hc, if_gt_eq_max, hstab x hx]
      have hfold1 : List.foldl
          (fun m dep =>
            if ltNe (g.ltOfN dep) (g.ltOfN n) || g.reducingOfN n then
              (if loopF g s dep + 1 > m then loopF g s dep + 1 else m)
            else
              (if loopF g s dep > m then loopF g s dep else m))
          (loopF g s d) (d :: ds) =
          List.foldl (fun m dep => max m (floopSpec g n dep))
            (nodeLoop g d) (d :: ds) :=
        foldl_congr_mem _ _ _ _ _ (hstab d (List.mem_cons_self d ds)) hbody
      have hd_le : nodeLoop g d ≤ floopSpec g n d := by
        rw [floopSpec]
        by_cases hc : (ltNe (g.ltOfN d) (g.ltOfN n) || g.reducingOfN n) = true
        · rw [if_pos hc]; omega
        · rw [if_neg hc]
      have hin : floopSpec g n d ≤
          (List.map (floopSpec g n) (d :: ds)).foldl max 0 :=
        le_foldl_max _ _ (List.mem_map_of_mem (floopSpec g n)
          (List.mem_cons_self d ds))
      refine hfold1.trans ?_
      rw [← List.foldl_map (floopSpec g n) max (d :: ds) (nodeLoop g d),
        foldl_max_init]
      exact max_eq_right (Nat.le_trans hd_le hin)

/-- Witness for C3 on a concrete three-node chain (node 1 reducing). -/
theorem c3_loop_recurrence_witness :
    nodeLoop exG3 1 = ((exG3.dependersOfN 1).map (floopSpec exG3 1)).foldl max 0 :=
  (c3_loop_recurrence exG3 (fun k => k) 1 ⟨by decide, by decide⟩ (by decide)).2
    (by decide)

theorem mem_setInsert {x y : Nat} {l : List Nat} :
    y ∈ setInsert x l ↔ y = x ∨ y ∈ l := by
  by_cases h : x ∈ l
  · simp only [setInsert, if_pos h]
    constructor
    · exact fun hy => Or.inr hy
    · rintro (rfl | hy)
      · exact h
      · exact hy
  · simp [setInsert, if_neg h]

theorem length_modify (f : GNode → GNode) (i : Nat) (g : EGraph) :
    (g.modify f i).length = g.length := by
  simp [List.length_modify]

theorem getD_modify_self {f : GNode → GNode} {i : Nat} {g : EGraph}
    (h : i < g.length) :
    (g.modify f i).getD i ⟨[], []⟩ = f (g.getD i ⟨[], []⟩) := by
  simp [List.getD, List.getElem?_modify, List.getElem?_eq_getElem h]

theorem getD_modify_ne {f : GNode → GNode} {i j : Nat} {g : EGraph}
    (h : i ≠ j) :
    (g.modify f i).getD j ⟨[], []⟩ = g.getD j ⟨[], []⟩ := by
  simp [List.getD, List.getElem?_modify, h]

theorem getD_append_lt {g : EGraph} {i : Nat} (h : i < g.length)
    (l : EGraph) : (g ++ l).getD i ⟨[], []⟩ = g.getD i ⟨[], []⟩ := by
  simp [List.getD, List.getElem?_append_left h]

theorem getD_append_self (g : EGraph) (x : GNode) :
    (g ++ [x]).getD g.length ⟨[], []⟩ = x := by
  simp [List.getD]

/-- `create` preserves the mirror invariant. -/
theorem mirrored_createOp {g : EGraph} (hg : Mirrored g) :
    Mirrored (createOp g) := by
  intro i hi
  rw [createOp] at hi ⊢
  simp only [List.length_append, List.length_singleton] at hi
  by_cases hlt : i < g.length
  · have := hg i hlt
    constructor
    · intro d hd
      rw [depsOfE, getD_append_lt hlt] at hd
      obtain ⟨hdl, hmem⟩ := (this.1 d hd)
      refine ⟨by simp only [List.length_append, List.length_singleton]; omega, ?_⟩
      rw [dependersOfE, getD_append_lt hdl]
      exact hmem
    · intro d hd
      rw [dependersOfE, getD_append_lt hlt] at hd
      obtain ⟨hdl, hmem⟩ := (this.2 d hd)
      refine ⟨by simp only [List.length_append, List.length_singleton]; omega, ?_⟩
      rw [depsOfE, getD_append_lt hdl]
      exact hmem
  · have hieq : i = g.length := by omega
    subst hieq
    constructor
    · intro d hd
      rw [depsOfE, getD_append_self] at hd
      simp at hd
    · intro d hd
      rw [dependersOfE, getD_append_self] at hd
      simp at hd

/-- `needs` preserves the mirror invariant (for valid in-range, distinct
arguments). -/
theorem mirrored_needsOp {g : EGraph} {a b : Nat} (hg : Mirrored g)
    (ha : a < g.length) (hb : b < g.length) (hab : a ≠ b) :
    Mirrored (needsOp g a b) := by
  have hba : b ≠ a := fun h => hab h.symm
  have hlen : (needsOp g a b).length = g.length := by
    rw [needsOp, length_modify, length_modify]
  have hdeps : ∀ j, depsOfE (needsOp g a b) j =
      (if j = a then setInsert b (depsOfE g a) else depsOfE g j) := by
    intro j
    by_cases hja : j = a
    · rw [if_pos hja, hja, needsOp, depsOfE, getD_modify_ne hba,
        getD_modify_self ha]
      rfl
    · rw [if_neg hja, needsOp, depsOfE]
      by_cases hjb : j = b
      · rw [hjb, getD_modify_self (by rw [length_modify]; exact hb),
          getD_modify_ne (fun h => hja (hjb ▸ h.symm))]
        rfl
      · rw [getD_modify_ne (fun h => hjb h.symm),
          getD_modify_ne (fun h => hja h.symm)]
        rfl
  have hdependers : ∀ j, dependersOfE (needsOp g a b) j =
      (if j = b then setInsert a (dependersOfE g b) else dependersOfE g j) := by
    intro j
    by_cases hjb : j = b
    · rw [if_pos hjb, hjb, needsOp, dependersOfE,
        getD_modify_self (by rw [length_modify]; exact hb),
        getD_modify_ne hab]
      rfl
    · rw [if_neg hjb, needsOp, dependersOfE,
        getD_modify_ne (fun h => hjb h.symm)]
      by_cases hja : j = a
      · rw [hja, getD_modify_self ha]
        rfl
      · rw [getD_modify_ne (fun h => hja h.symm)]
        rfl
  intro i hi
  have hi' : i < g.length := by rw [hlen] at hi; exact hi
  constructor
  · intro d hd
    rw [hdeps i] at hd
    by_cases hia : i = a
    · rw [if_pos hia, mem_setInsert] at hd
      rcases hd with hdb | hd
      · refine ⟨by rw [hlen, hdb]; exact hb, ?_⟩
        rw [hdb, hdependers b, if_pos rfl, mem_setInsert]
        exact Or.inl hia
      · rw [← hia] at hd
        obtain ⟨hdl, hmem⟩ := (hg i hi').1 d hd
        refine ⟨by rw [hlen]; exact hdl, ?_⟩
        rw [hdependers d]
        by_cases hdb : d = b
        · rw [if_pos hdb, mem_setInsert]
          refine Or.inr ?_
          rw [← hdb]
          exact hmem
        · rw [if_neg hdb]
          exact hmem
    · rw [if_neg hia] at hd
      obtain ⟨hdl, hmem⟩ := (hg i hi').1 d hd
      refine ⟨by rw [hlen]; exact hdl, ?_⟩
      rw [hdependers d]
      by_cases hdb : d = b
      · rw [if_pos hdb, mem_setInsert]
        refine Or.inr ?_
        rw [← hdb]
        exact hmem
      · rw [if_neg hdb]
        exact hmem
  · intro d hd
    rw [hdependers i] at hd
    by_cases hib : i = b
    · rw [if_pos hib, mem_setInsert] at hd
      rcases hd with hda | hd
      · refine ⟨by rw [hlen, hda]; exact ha, ?_⟩
        rw [hda, hdeps a, if_pos rfl, mem_setInsert]
        exact Or.inl hib
      · rw [← hib] at hd
        obtain ⟨hdl, hmem⟩ := (hg i hi').2 d hd
        refine ⟨by rw [hlen]; exact hdl, ?_⟩
        rw [hdeps d]
        by_cases hda : d = a
        · rw [if_pos hda, mem_setInsert]
          refine Or.inr ?_
          rw [← hda]
          exact hmem
        · rw [if_neg hda]
          exact hmem
    · rw [if_neg hib] at hd
      obtain ⟨hdl, hmem⟩ := (hg i hi').2 d hd
      refine ⟨by rw [hlen]; exact hdl, ?_⟩
      rw [hdeps d]
      by_cases hda : d = a
      · rw [if_pos hda, mem_setInsert]
        refine Or.inr ?_
        rw [← hda]
        exact hmem
      · rw [if_neg hda]
        exact hmem

theorem length_applyOps (g : EGraph) (ops : List GOp) :
    g.length ≤ (applyOps g ops).length := by
  induction ops generalizing g with
  | nil => exact Nat.le_refl _
  | cons op ops ih =>
    refine Nat.le_trans ?_ (ih (applyOp g op))
    cases op with
    | create => simp [applyOp, createOp]
    | needs a b =>
      simp [applyOp, needsOp, length_modify]
    | clearDeps a => simp [applyOp, clearDepsOp, List.length_modify]

/-- Claim C5 (amended): after any valid sequence of `create` and `needs`
operations the forward and reverse edge sets are exact mirrors of each
other.  (`clearDeps` breaks the invariant, see the counterexample.) -/
theorem c5_needs_keeps_edges_mirrored (ops : List GOp)
    (hv : opsValidB 0 ops = true) (hnc : noClearB ops = true) :
    Mirrored (applyOps [] ops) := by
  suffices h : ∀ (ops : List GOp) (g : EGraph), opsValidB g.length ops = true →
      noClearB ops = true → Mirrored g → Mirrored (applyOps g ops) by
    refine h ops [] hv hnc ?_
    intro i hi
    simp at hi
  intro ops
  induction ops with
  | nil => intro g _ _ hg; exact hg
  | cons op ops ih =>
    intro g hv hnc hg
    cases op with
    | create =>
      rw [opsValidB] at hv
      rw [noClearB] at hnc
      have hlen : (createOp g).length = g.length + 1 := by
        simp [createOp]
      exact ih (createOp g) (by rw [hlen]; exact hv) hnc
        (mirrored_createOp hg)
    | needs a b =>
      rw [opsValidB] at hv
      rw [noClearB] at hnc
      simp only [Bool.and_eq_true, decide_eq_true_eq] at hv
      obtain ⟨⟨⟨ha, hb⟩, hab⟩, hv'⟩ := hv
      have hlen : (needsOp g a b).length = g.length := by
        rw [needsOp, length_modify, length_modify]
      exact ih (needsOp g a b) (by rw [hlen]; exact hv') hnc
        (mirrored_needsOp hg ha hb hab)
    | clearDeps a =>
      rw [noClearB] at hnc
      exact absurd hnc (by simp)

/-- Witness for C5 on a concrete run: two `create`s and `needs 0 1`. -/
theorem c5_needs_keeps_edges_mirrored_witness :
    Mirrored (applyOps [] [GOp.create, GOp.create, GOp.needs 0 1]) :=
  c5_needs_keeps_edges_mirrored [GOp.create, GOp.create, GOp.needs 0 1]
    (by rfl) (by rfl)

/-- Counterexample for C5 as stated: after `a.needs(b); b.clearDeps()` the
edge sets are not mirrored — node 0 still lists 1 among its deps, but node
1's dependers set was cleared without detaching that reverse entry. -/
theorem c5_clearDeps_counterexample :
    ¬ Mirrored (applyOps []
        [GOp.create, GOp.create, GOp.needs 0 1, GOp.clearDeps 1]) ∧
    depsOfE (applyOps []
        [GOp.create, GOp.create, GOp.needs 0 1, GOp.clearDeps 1]) 0 = [1] ∧
    dependersOfE (applyOps []
        [GOp.create, GOp.create, GOp.needs 0 1, GOp.clearDeps 1]) 1 = [] := by
  refine ⟨?_, rfl, rfl⟩
  decide

theorem pres_refl (s : Store) : Pres s s :=
  ⟨rfl, rfl, rfl, rfl, rfl, rfl, rfl, rfl, rfl, rfl, rfl⟩

theorem Pres.comp {s1 s2 s3 : Store} (h1 : Pres s1 s2) (h2 : Pres s2 s3) :
    Pres s1 s3 :=
  ⟨h2.names.trans h1.names, h2.ids.trans h1.ids, h2.valuers.trans h1.valuers,
   h2.ownValuer.trans h1.ownValuer, h2.mappers.trans h1.mappers,
   h2.wantOld.trans h1.wantOld, h2.wantOlder.trans h1.wantOlder,
   h2.errcheck.trans h1.errcheck, h2.oldVals.trans h1.oldVals,
   h2.olderVals.trans h1.olderVals, h2.shiftCounts.trans h1.shiftCounts⟩

theorem pres_update (s : Store) (ct : List Nat) (cr : List (List Nat))
    (il : List (Nat × Bool)) (ec : Nat → Bool) (cv : Nat → LocMap) :
    Pres s { s with cycleTop := ct, cycleRest := cr, invokeLog := il,
                    externalCurr := ec, currVals := cv } :=
  ⟨rfl, rfl, rfl, rfl, rfl, rfl, rfl, rfl, rfl, rfl, rfl⟩

theorem pres_pushTopIf (i : Nat) (s : Store) : Pres s (pushTopIf i s) := by
  unfold pushTopIf pushTop
  split
  · exact pres_update s _ _ _ _ _
  · exact pres_refl s

theorem pres_logInvoke (i : Nat) (s : Store) : Pres s (logInvoke i s) :=
  pres_update s _ _ _ _ _

theorem pres_setExt (i : Nat) (b : Bool) (s : Store) : Pres s (setExt i b s) :=
  pres_update s _ _ _ _ _

theorem pres_stageCurr (i : Nat) (k : LKey) (v : Int) (s : Store) :
    Pres s (stageCurr i k v s) :=
  pres_update s _ _ _ _ _

theorem pres_eraseTop (i : Nat) (s : Store) : Pres s (eraseTop i s) :=
  pres_update s _ _ _ _ _

theorem pres_pushFrame (s : Store) : Pres s (pushFrame s) :=
  pres_update s _ _ _ _ _

theorem pres_popFrame (s : Store) : Pres s (popFrame s) :=
  pres_update s _ _ _ _ _

theorem mem_finsert_self (i : Nat) (l : List Nat) : i ∈ finsert i l := by
  induction l with
  | nil => exact List.mem_singleton.mpr rfl
  | cons j t ih =>
    rw [finsert]
    by_cases h1 : i < j
    · rw [if_pos h1]; exact List.mem_cons_self i _
    · rw [if_neg h1]
      by_cases h2 : i = j
      · rw [if_pos h2, h2]; exact List.mem_cons_self j t
      · rw [if_neg h2]; exact List.mem_cons_of_mem j ih

theorem finsert_erase {i : Nat} {l : List Nat} (h : i ∉ l) :
    (finsert i l).erase i = l := by
  induction l with
  | nil => simp [finsert]
  | cons j t ih =>
    have hij : i ≠ j := fun heq => h (heq ▸ List.mem_cons_self j t)
    have hit : i ∉ t := fun hmem => h (List.mem_cons_of_mem j hmem)
    rw [finsert]
    by_cases h1 : i < j
    · rw [if_pos h1, List.erase_cons_head]
    · rw [if_neg h1, if_neg hij, List.erase_cons_tail, ih hit]
      simp [hij.symm]

theorem lmGet_lmInsert_self (k : LKey) (v : Int) (m : LocMap) :
    lmGet k (lmInsert k v m) = some v := by
  induction m with
  | nil => simp [lmInsert, lmGet]
  | cons p rest ih =>
    obtain ⟨k', v'⟩ := p
    rw [lmInsert]
    by_cases h : k' = k
    · rw [if_pos h, lmGet, if_pos rfl]
    · rw [if_neg h, lmGet, if_neg h, ih]

/-! Unfold lemmas for `getF`. -/

theorem getF_mapper {s : Store} {i : Nat} {m : Location → Nat}
    (hm : s.mapperAt i = some m) (fuel ty : Nat) (loc : Location) :
    getF (fuel + 1) s ty i loc = getF fuel s ty (m loc) loc := by
  simp [getF, hm]

theorem getF_badId {s : Store} {i : Nat} (hm : s.mapperAt i = none)
    (hv : s.valuerAt i = none) (fuel ty : Nat) (loc : Location) :
    getF (fuel + 1) s ty i loc = .error (.badId i) := by
  simp [getF, hm, hv]

theorem getF_cyclic {s : Store} {i : Nat} {vs : VSpec}
    (hm : s.mapperAt i = none) (hv : s.valuerAt i = some vs)
    (hc : s.errcheck = true) (hin : i ∈ s.cycleTop) (fuel ty : Nat)
    (loc : Location) :
    getF (fuel + 1) s ty i loc =
      .error (.cyclicDep (s.nameAt i) (s.cycleTop.map s.nameAt)) := by
  simp [getF, hm, hv, hc, hin]

theorem getF_typeErr {s : Store} {i : Nat} {vs : VSpec} {ty : Nat}
    (hm : s.mapperAt i = none) (hv : s.valuerAt i = some vs)
    (hcy : ¬(s.errcheck = true ∧ i ∈ s.cycleTop))
    (ht : s.errcheck = true ∧ ty ≠ vs.ty) (fuel : Nat) (loc : Location) :
    getF (fuel + 1) s ty i loc = .error (.typeMismatch vs.ty ty) := by
  simp only [getF, hm, hv]
  rw [if_neg hcy, if_pos ht]

theorem getF_func {s : Store} {i : Nat} {vs : VSpec} {ty : Nat}
    {f : Location → Int} (hm : s.mapperAt i = none)
    (hv : s.valuerAt i = some vs)
    (hcy : ¬(s.errcheck = true ∧ i ∈ s.cycleTop))
    (ht : ¬(s.errcheck = true ∧ ty ≠ vs.ty)) (hb : vs.body = .func f)
    (fuel : Nat) (loc : Location) :
    getF (fuel + 1) s ty i loc =
      getPost i (lkey loc) (f loc) (logInvoke i (pushTopIf i s)) := by
  simp only [getF, hm, hv]
  rw [if_neg hcy, if_neg ht, hb]

theorem getF_dep1 {s : Store} {i : Nat} {vs : VSpec} {ty : Nat}
    {j tj : Nat} {comb : Location → Int → Int} (hm : s.mapperAt i = none)
    (hv : s.valuerAt i = some vs)
    (hcy : ¬(s.errcheck = true ∧ i ∈ s.cycleTop))
    (ht : ¬(s.errcheck = true ∧ ty ≠ vs.ty)) (hb : vs.body = .dep1 j tj comb)
    (fuel : Nat) (loc : Location) :
    getF (fuel + 1) s ty i loc =
      (match getF fuel (logInvoke i (pushTopIf i s)) tj j loc with
       | .error e => .error e
       | .ok (v, s2) => getPost i (lkey loc) (comb loc v) s2) := by
  simp only [getF, hm, hv]
  rw [if_neg hcy, if_neg ht, hb]

theorem getPost_eq (i : Nat) (k : LKey) (v0 : Int) (s2 : Store) :
    getPost i k v0 s2 = .ok (v0, postState i k v0 s2) := by
  unfold getPost postState
  by_cases hw : (s2.wantOld i || s2.wantOlder i) = true <;>
    by_cases he : s2.errcheck = true <;>
      simp [setExt, stageCurr, hw, he]

theorem postState_pres (i : Nat) (k : LKey) (v0 : Int) (s2 : Store) :
    Pres s2 (postState i k v0 s2) := by
  unfold postState
  by_cases hw : (s2.wantOld i || s2.wantOlder i) = true <;>
    by_cases he : s2.errcheck = true <;>
      simp only [hw, he, if_pos, if_neg, Bool.false_eq_true, if_false,
        if_true] <;>
      first
        | exact Pres.comp (pres_setExt i true s2)
            (Pres.comp (pres_stageCurr i k v0 _) (pres_eraseTop i _))
        | exact Pres.comp (pres_setExt i true s2) (pres_eraseTop i _)
        | exact Pres.comp (pres_setExt i true s2) (pres_stageCurr i k v0 _)
        | exact pres_setExt i true s2

theorem postState_cycleRest (i : Nat) (k : LKey) (v0 : Int) (s2 : Store) :
    (postState i k v0 s2).cycleRest = s2.cycleRest := by
  unfold postState
  by_cases hw : (s2.wantOld i || s2.wantOlder i) = true <;>
    by_cases he : s2.errcheck = true <;>
      simp [hw, he, eraseTop, stageCurr, setExt]

theorem postState_invokeLog (i : Nat) (k : LKey) (v0 : Int) (s2 : Store) :
    (postState i k v0 s2).invokeLog = s2.invokeLog := by
  unfold postState
  by_cases hw : (s2.wantOld i || s2.wantOlder i) = true <;>
    by_cases he : s2.errcheck = true <;>
      simp [hw, he, eraseTop, stageCurr, setExt]

theorem postState_cycleTop (i : Nat) (k : LKey) (v0 : Int) (s2 : Store) :
    (postState i k v0 s2).cycleTop =
      (if s2.errcheck = true then s2.cycleTop.erase i else s2.cycleTop) := by
  unfold postState
  by_cases hw : (s2.wantOld i || s2.wantOlder i) = true <;>
    by_cases he : s2.errcheck = true <;>
      simp [hw, he, eraseTop, stageCurr, setExt]

theorem postState_ext (i : Nat) (k : LKey) (v0 : Int) (s2 : Store) :
    (postState i k v0 s2).externalCurr i = true := by
  unfold postState
  by_cases hw : (s2.wantOld i || s2.wantOlder i) = true <;>
    by_cases he : s2.errcheck = true <;>
      simp [hw, he, eraseTop, stageCurr, setExt]

theorem postState_stage (i : Nat) (k : LKey) (v0 : Int) (s2 : Store)
    (hw : (s2.wantOld i || s2.wantOlder i) = true) :
    lmGet k ((postState i k v0 s2).currVals i) = some v0 := by
  unfold postState
  by_cases he : s2.errcheck = true <;>
    simp [hw, he, eraseTop, stageCurr, setExt, lmGet_lmInsert_self]

theorem getF_dep1_ok {s s2 : Store} {i : Nat} {vs : VSpec} {ty : Nat}
    {j tj : Nat} {comb : Location → Int → Int} {v2 : Int}
    (hm : s.mapperAt i = none) (hv : s.valuerAt i = some vs)
    (hcy : ¬(s.errcheck = true ∧ i ∈ s.cycleTop))
    (ht : ¬(s.errcheck = true ∧ ty ≠ vs.ty)) (hb : vs.body = .dep1 j tj comb)
    {fuel : Nat} {loc : Location}
    (hr : getF fuel (logInvoke i (pushTopIf i s)) tj j loc = .ok (v2, s2)) :
    getF (fuel + 1) s ty i loc = getPost i (lkey loc) (comb loc v2) s2 := by
  rw [getF_dep1 hm hv hcy ht hb, hr]

theorem getF_dep1_err {s : Store} {i : Nat} {vs : VSpec} {ty : Nat}
    {j tj : Nat} {comb : Location → Int → Int} {e : VErr}
    (hm : s.mapperAt i = none) (hv : s.valuerAt i = some vs)
    (hcy : ¬(s.errcheck = true ∧ i ∈ s.cycleTop))
    (ht : ¬(s.errcheck = true ∧ ty ≠ vs.ty)) (hb : vs.body = .dep1 j tj comb)
    {fuel : Nat} {loc : Location}
    (hr : getF fuel (logInvoke i (pushTopIf i s)) tj j loc = .error e) :
    getF (fuel + 1) s ty i loc = .error e := by
  rw [getF_dep1 hm hv hcy ht hb, hr]

theorem pushTopIf_cycleTop (i : Nat) (s : Store) :
    (pushTopIf i s).cycleTop =
      (if s.errcheck = true then finsert i s.cycleTop else s.cycleTop) := by
  unfold pushTopIf pushTop
  by_cases he : s.errcheck = true <;> simp [he]

theorem pushTopIf_cycleRest (i : Nat) (s : Store) :
    (pushTopIf i s).cycleRest = s.cycleRest := by
  unfold pushTopIf pushTop
  by_cases he : s.errcheck = true <;> simp [he]

theorem pushTopIf_invokeLog (i : Nat) (s : Store) :
    (pushTopIf i s).invokeLog = s.invokeLog := by
  unfold pushTopIf pushTop
  by_cases he : s.errcheck = true <;> simp [he]

theorem logInvoke_cycleTop (i : Nat) (s : Store) :
    (logInvoke i s).cycleTop = s.cycleTop := rfl

theorem logInvoke_cycleRest (i : Nat) (s : Store) :
    (logInvoke i s).cycleRest = s.cycleRest := rfl

theorem logInvoke_invokeLog (i : Nat) (s : Store) :
    (logInvoke i s).invokeLog =
      s.invokeLog ++ [(i, decide (i ∈ s.cycleTop))] := rfl

/-- Soundness bundle for successful `getF` runs: the structural fields are
preserved, the cycle stack is restored on return, and (with error checking
on) every valuer invocation recorded during the run happened with its id a
member of the top in-flight frame. -/
theorem getF_ok_spec : ∀ (fuel : Nat) (s : Store) (ty i : Nat)
    (loc : Location) (v : Int) (s' : Store),
    getF fuel s ty i loc = .ok (v, s') →
    Pres s s' ∧ s'.cycleTop = s.cycleTop ∧ s'.cycleRest = s.cycleRest ∧
    (s.errcheck = true →
      ∀ e ∈ s'.invokeLog, e ∈ s.invokeLog ∨ e.2 = true) := by
  intro fuel
  induction fuel with
  | zero =>
    intro s ty i loc v s' h
    exact absurd h (by simp [getF])
  | succ fuel ih =>
    intro s ty i loc v s' h
    cases hm : s.mapperAt i with
    | some m =>
      rw [getF_mapper hm] at h
      exact ih s ty (m loc) loc v s' h
    | none =>
      cases hv : s.valuerAt i with
      | none =>
        rw [getF_badId hm hv] at h
        exact absurd h (by simp)
      | some vs =>
        by_cases hcy : s.errcheck = true ∧ i ∈ s.cycleTop
        · rw [getF_cyclic hm hv hcy.1 hcy.2] at h
          exact absurd h (by simp)
        · by_cases hty : s.errcheck = true ∧ ty ≠ vs.ty
          · rw [getF_typeErr hm hv hcy hty] at h
            exact absurd h (by simp)
          · have hSBpres : Pres s (logInvoke i (pushTopIf i s)) :=
              Pres.comp (pres_pushTopIf i s) (pres_logInvoke i _)
            have hSBtop : (logInvoke i (pushTopIf i s)).cycleTop =
                (if s.errcheck = true then finsert i s.cycleTop
                 else s.cycleTop) := by
              rw [logInvoke_cycleTop, pushTopIf_cycleTop]
            have hSBrest : (logInvoke i (pushTopIf i s)).cycleRest =
                s.cycleRest := by
              rw [logInvoke_cycleRest, pushTopIf_cycleRest]
            have hSBerr : (logInvoke i (pushTopIf i s)).errcheck =
                s.errcheck := hSBpres.errcheck
            have hSBlog : s.errcheck = true →
                (logInvoke i (pushTopIf i s)).invokeLog =
                  s.invokeLog ++ [(i, true)] := by
              intro he
              rw [logInvoke_invokeLog, pushTopIf_invokeLog, pushTopIf_cycleTop,
                if_pos he]
              congr 2
              simp [mem_finsert_self]
            -- helper discharging the goal once `v`/`s'` are the post state
            -- of some intermediate state `s2` reached from the logged push
            have hfinish : ∀ (s2 : Store) (v0 : Int),
                Pres (logInvoke i (pushTopIf i s)) s2 →
                s2.cycleTop = (logInvoke i (pushTopIf i s)).cycleTop →
                s2.cycleRest = s.cycleRest →
                (s.errcheck = true → ∀ e ∈ s2.invokeLog,
                  e ∈ s.invokeLog ++ [(i, true)] ∨ e.2 = true) →
                Pres s (postState i (lkey loc) v0 s2) ∧
                (postState i (lkey loc) v0 s2).cycleTop = s.cycleTop ∧
                (postState i (lkey loc) v0 s2).cycleRest = s.cycleRest ∧
                (s.errcheck = true → ∀ e ∈ (postState i (lkey loc) v0 s2).invokeLog,
                  e ∈ s.invokeLog ∨ e.2 = true) := by
              intro s2 v0 hpres htop hrest hlog
              refine ⟨Pres.comp (Pres.comp hSBpres hpres)
                (postState_pres i (lkey loc) v0 s2), ?_, ?_, ?_⟩
              · rw [postState_cycleTop, htop, hSBtop, hpres.errcheck, hSBerr]
                by_cases he : s.errcheck = true
                · simp only [if_pos he]
                  exact finsert_erase (fun hmem => hcy ⟨he, hmem⟩)
                · simp only [if_neg he]
              · rw [postState_cycleRest, hrest]
              · intro he
                rw [postState_invokeLog]
                intro e hmem
                rcases hlog he e hmem with hin | hflag
                · rcases List.mem_append.mp hin with hold | hnew
                  · exact Or.inl hold
                  · right
                    have : e = (i, true) := List.mem_singleton.mp hnew
                    rw [this]
                · exact Or.inr hflag
            cases hb : vs.body with
            | func f =>
              rw [getF_func hm hv hcy hty hb, getPost_eq] at h
              simp only [Except.ok.injEq, Prod.mk.injEq] at h
              obtain ⟨hveq, hseq⟩ := h
              rw [← hseq]
              refine hfinish _ (f loc) (pres_refl _) rfl hSBrest ?_
              intro he e hmem
              rw [hSBlog he] at hmem
              exact Or.inl hmem
            | dep1 j tj comb =>
              cases hr : getF fuel (logInvoke i (pushTopIf i s)) tj j loc with
              | error e =>
                rw [getF_dep1_err hm hv hcy hty hb hr] at h
                exact absurd h (by simp)
              | ok p =>
                obtain ⟨v2, s2⟩ := p
                rw [getF_dep1_ok hm hv hcy hty hb hr, getPost_eq] at h
                simp only [Except.ok.injEq, Prod.mk.injEq] at h
                obtain ⟨hveq, hseq⟩ := h
                rw [← hseq]
                obtain ⟨hpres2, htop2, hrest2, hlog2⟩ :=
                  ih (logInvoke i (pushTopIf i s)) tj j loc v2 s2 hr
                refine hfinish s2 (comb loc v2) hpres2 htop2
                  (hrest2.trans hSBrest) ?_
                intro he e hmem
                have heSB : (logInvoke i (pushTopIf i s)).errcheck = true := by
                  rw [hSBerr]; exact he
                rcases hlog2 heSB e hmem with hin | hflag
                · rw [hSBlog he] at hin
                  exact Or.inl hin
                · exact Or.inr hflag

/-! Field-preservation facts for the remaining state transformers (all
definitional). -/

theorem setWant_fields (w : Bool) (i : Nat) (s : Store) :
    (setWant w i s).mappers = s.mappers ∧
    (setWant w i s).valuers = s.valuers ∧
    (setWant w i s).externalCurr = s.externalCurr ∧
    (setWant w i s).oldVals = s.oldVals ∧
    (setWant w i s).olderVals = s.olderVals ∧
    (setWant w i s).currVals = s.currVals ∧
    (setWant w i s).errcheck = s.errcheck ∧
    (setWant w i s).names = s.names := by
  unfold setWant
  by_cases hw : w = true <;> simp [hw]

theorem pushFrameIf_fields (s : Store) :
    (pushFrameIf s).mappers = s.mappers ∧
    (pushFrameIf s).valuers = s.valuers ∧
    (pushFrameIf s).externalCurr = s.externalCurr ∧
    (pushFrameIf s).oldVals = s.oldVals ∧
    (pushFrameIf s).olderVals = s.olderVals ∧
    (pushFrameIf s).currVals = s.currVals ∧
    (pushFrameIf s).errcheck = s.errcheck ∧
    (pushFrameIf s).wantOld = s.wantOld ∧
    (pushFrameIf s).wantOlder = s.wantOlder := by
  unfold pushFrameIf pushFrame
  by_cases he : s.errcheck = true <;> simp [he]

theorem pushFrameIf_cycleTop (s : Store) (he : s.errcheck = true) :
    (pushFrameIf s).cycleTop = [] := by
  unfold pushFrameIf pushFrame
  simp [he]

theorem shiftOp_fields (s : Store) :
    (shiftOp s).mappers = s.mappers ∧
    (shiftOp s).valuers = s.valuers ∧
    (shiftOp s).externalCurr = s.externalCurr ∧
    (shiftOp s).errcheck = s.errcheck ∧
    (shiftOp s).wantOld = s.wantOld ∧
    (shiftOp s).wantOlder = s.wantOlder ∧
    (shiftOp s).oldVals = s.currVals ∧
    (shiftOp s).olderVals = s.oldVals ∧
    (shiftOp s).currVals = s.olderVals :=
  ⟨rfl, rfl, rfl, rfl, rfl, rfl, rfl, rfl, rfl⟩

theorem mapperAt_congr {s s' : Store} (h : s'.mappers = s.mappers) (i : Nat) :
    s'.mapperAt i = s.mapperAt i := by
  unfold Store.mapperAt
  rw [h]

theorem valuerAt_congr {s s' : Store} (h : s'.valuers = s.valuers) (i : Nat) :
    s'.valuerAt i = s.valuerAt i := by
  unfold Store.valuerAt
  rw [h]

/-- Stage/type facts for a successful top-level non-mapper `getF` run:
the valuer exists, the requested type matched when checking was on, the
`external_curr` flag is set, and (when old/older tracking is armed) the
returned value was staged into the current-value map under the location
key. -/
theorem getF_ok_stage (fuel : Nat) (s : Store) (ty i : Nat) (loc : Location)
    (v : Int) (s' : Store) (hm : s.mapperAt i = none)
    (h : getF fuel s ty i loc = .ok (v, s')) :
    ∃ vs, s.valuerAt i = some vs ∧ (s.errcheck = true → ty = vs.ty) ∧
      s'.externalCurr i = true ∧
      ((s.wantOld i || s.wantOlder i) = true →
        lmGet (lkey loc) (s'.currVals i) = some v) := by
  cases fuel with
  | zero => exact absurd h (by simp [getF])
  | succ fuel =>
    cases hv : s.valuerAt i with
    | none =>
      rw [getF_badId hm hv] at h
      exact absurd h (by simp)
    | some vs =>
      by_cases hcy : s.errcheck = true ∧ i ∈ s.cycleTop
      · rw [getF_cyclic hm hv hcy.1 hcy.2] at h
        exact absurd h (by simp)
      · by_cases hty : s.errcheck = true ∧ ty ≠ vs.ty
        · rw [getF_typeErr hm hv hcy hty] at h
          exact absurd h (by simp)
        · have htyok : s.errcheck = true → ty = vs.ty := by
            intro he
            by_contra hne
            exact hty ⟨he, hne⟩
          refine ⟨vs, hv ▸ rfl, htyok, ?_⟩
          have hSBpres : Pres s (logInvoke i (pushTopIf i s)) :=
            Pres.comp (pres_pushTopIf i s) (pres_logInvoke i _)
          cases hb : vs.body with
          | func f =>
            rw [getF_func hm hv hcy hty hb, getPost_eq] at h
            simp only [Except.ok.injEq, Prod.mk.injEq] at h
            obtain ⟨hveq, hseq⟩ := h
            rw [← hseq]
            constructor
            · exact postState_ext i (lkey loc) (f loc) _
            · intro hw
              rw [← hveq]
              refine postState_stage i (lkey loc) (f loc) _ ?_
              rw [hSBpres.wantOld, hSBpres.wantOlder]
              exact hw
          | dep1 j tj comb =>
            cases hr : getF fuel (logInvoke i (pushTopIf i s)) tj j loc with
            | error e =>
              rw [getF_dep1_err hm hv hcy hty hb hr] at h
              exact absurd h (by simp)
            | ok p =>
              obtain ⟨v2, s2⟩ := p
              rw [getF_dep1_ok hm hv hcy hty hb hr, getPost_eq] at h
              simp only [Except.ok.injEq, Prod.mk.injEq] at h
              obtain ⟨hveq, hseq⟩ := h
              have hpres2 : Pres (logInvoke i (pushTopIf i s)) s2 :=
                (getF_ok_spec fuel _ tj j loc v2 s2 hr).1
              rw [← hseq]
              constructor
              · exact postState_ext i (lkey loc) (comb loc v2) s2
              · intro hw
                rw [← hveq]
                refine postState_stage i (lkey loc) (comb loc v2) s2 ?_
                rw [hpres2.wantOld, hSBpres.wantOld,
                  hpres2.wantOlder, hSBpres.wantOlder]
                exact hw

/-! Unfold lemmas for `getStoredF` and `finishStored`. -/

theorem getStoredF_mapper {s : Store} {i : Nat} {m : Location → Nat}
    (hm : s.mapperAt i = some m) (fuel : Nat) (w : Bool) (ty : Nat)
    (loc : Location) (older : Bool) :
    getStoredF (fuel + 1) s w ty i loc older =
      getStoredF fuel s w ty (m loc) loc false := by
  simp [getStoredF, hm]

theorem getStoredF_typeErr {s : Store} {i : Nat} {vs : VSpec} {ty : Nat}
    (hm : s.mapperAt i = none) (hv : s.valuerAt i = some vs)
    (ht : s.errcheck = true ∧ ty ≠ vs.ty) (fuel : Nat) (w : Bool)
    (loc : Location) (older : Bool) :
    getStoredF (fuel + 1) s w ty i loc older =
      .error (.typeMismatch vs.ty ty) := by
  simp only [getStoredF, hm, hv]
  rw [if_pos ht]

theorem getStoredF_ext {s : Store} {i : Nat} {vs : VSpec} {ty : Nat}
    (hm : s.mapperAt i = none) (hv : s.valuerAt i = some vs)
    (ht : ¬(s.errcheck = true ∧ ty ≠ vs.ty))
    (hext : s.externalCurr i = true) (fuel : Nat) (w : Bool)
    (loc : Location) (older : Bool) :
    getStoredF (fuel + 1) s w ty i loc older =
      finishStored w i loc older vs (setWant w i (pushFrameIf s)) := by
  have hext2 : (setWant w i (pushFrameIf s)).externalCurr i = true := by
    rw [(setWant_fields w i _).2.2.1, (pushFrameIf_fields s).2.2.1]
    exact hext
  simp only [getStoredF, hm, hv]
  rw [if_neg ht, if_pos hext2]

theorem getStoredF_force {s : Store} {i : Nat} {vs : VSpec} {ty : Nat}
    (hm : s.mapperAt i = none) (hv : s.valuerAt i = some vs)
    (ht : ¬(s.errcheck = true ∧ ty ≠ vs.ty))
    (hext : s.externalCurr i = false) (fuel : Nat) (w : Bool)
    (loc : Location) (older : Bool) :
    getStoredF (fuel + 1) s w ty i loc older =
      (match getF fuel (setWant w i (pushFrameIf s)) ty i loc with
       | .error e => .error e
       | .ok (_, s3) => finishStored w i loc older vs (setExt i false s3)) := by
  have hext2 : ¬((setWant w i (pushFrameIf s)).externalCurr i = true) := by
    rw [(setWant_fields w i _).2.2.1, (pushFrameIf_fields s).2.2.1, hext]
    simp
  simp only [getStoredF, hm, hv]
  rw [if_neg ht, if_neg hext2]

theorem finishStored_found {w : Bool} {i : Nat} {loc : Location}
    {older : Bool} {vs : VSpec} {s : Store} {v : Int}
    (hfound : lmGet (lkey loc) (whichVals w (popFrameIf s) i) = some v) :
    finishStored w i loc older vs s = .ok (v, popFrameIf s) := by
  unfold finishStored
  rw [hfound]

theorem finishStored_default {w : Bool} {i : Nat} {loc : Location}
    {older : Bool} {vs : VSpec} {s : Store}
    (hnone : lmGet (lkey loc) (whichVals w (popFrameIf s) i) = none) :
    finishStored w i loc older vs s =
      .ok ((if older then vs.iOlder loc else vs.iOld loc), popFrameIf s) := by
  unfold finishStored
  rw [hnone]

theorem finishStored_isOk (w : Bool) (i : Nat) (loc : Location)
    (older : Bool) (vs : VSpec) (s : Store) :
    ∃ v s4, finishStored w i loc older vs s = .ok (v, s4) := by
  cases hfind : lmGet (lkey loc) (whichVals w (popFrameIf s) i) with
  | some v => exact ⟨v, popFrameIf s, finishStored_found hfind⟩
  | none => exact ⟨_, popFrameIf s, finishStored_default hfind⟩

theorem popFrameIf_fields (s : Store) :
    (popFrameIf s).oldVals = s.oldVals ∧
    (popFrameIf s).olderVals = s.olderVals ∧
    (popFrameIf s).currVals = s.currVals := by
  unfold popFrameIf popFrame
  by_cases he : s.errcheck = true <;> simp [he]

theorem setWant_cycle (w : Bool) (i : Nat) (s : Store) :
    (setWant w i s).cycleTop = s.cycleTop ∧
    (setWant w i s).cycleRest = s.cycleRest := by
  unfold setWant
  by_cases hw : w = true <;> simp [hw]

theorem getStoredF_force_ok {s s3 : Store} {i : Nat} {vs : VSpec} {ty : Nat}
    {v0 : Int} (hm : s.mapperAt i = none) (hv : s.valuerAt i = some vs)
    (ht : ¬(s.errcheck = true ∧ ty ≠ vs.ty))
    (hext : s.externalCurr i = false) {fuel : Nat} {w : Bool}
    {loc : Location} {older : Bool}
    (hr : getF fuel (setWant w i (pushFrameIf s)) ty i loc = .ok (v0, s3)) :
    getStoredF (fuel + 1) s w ty i loc older =
      finishStored w i loc older vs (setExt i false s3) := by
  rw [getStoredF_force hm hv ht hext, hr]

theorem getStoredF_force_err {s : Store} {i : Nat} {vs : VSpec} {ty : Nat}
    {e : VErr} (hm : s.mapperAt i = none) (hv : s.valuerAt i = some vs)
    (ht : ¬(s.errcheck = true ∧ ty ≠ vs.ty))
    (hext : s.externalCurr i = false) {fuel : Nat} {w : Bool}
    {loc : Location} {older : Bool}
    (hr : getF fuel (setWant w i (pushFrameIf s)) ty i loc = .error e) :
    getStoredF (fuel + 1) s w ty i loc older = .error e := by
  rw [getStoredF_force hm hv ht hext, hr]

theorem whichVals_congr {w : Bool} {s s' : Store} (i : Nat)
    (hold : s'.oldVals = s.oldVals) (holder : s'.olderVals = s.olderVals) :
    whichVals w s' i = whichVals w s i := by
  unfold whichVals
  by_cases hw : w = true <;> simp [hw, hold, holder]

/-- When the selected stored map has no entry for the requested location,
a successful `getStoredF` returns the valuer's initial value (`initialOld`,
or `initialOlder` when the `older` flag is set). -/
theorem getStored_default_val : ∀ (fuel : Nat) (s : Store) (w : Bool)
    (ty i : Nat) (loc : Location) (older : Bool) (vs : VSpec) (v : Int)
    (s' : Store), s.mapperAt i = none → s.valuerAt i = some vs →
    lmGet (lkey loc) (whichVals w s i) = none →
    getStoredF fuel s w ty i loc older = .ok (v, s') →
    v = (if older then vs.iOlder loc else vs.iOld loc) := by
  intro fuel s w ty i loc older vs v s' hm hv hnone h
  cases fuel with
  | zero => exact absurd h (by simp [getStoredF])
  | succ fuel =>
    by_cases ht : s.errcheck = true ∧ ty ≠ vs.ty
    · rw [getStoredF_typeErr hm hv ht] at h
      exact absurd h (by simp)
    · have hW : ∀ s2 : Store, s2.oldVals = s.oldVals →
          s2.olderVals = s.olderVals →
          lmGet (lkey loc) (whichVals w s2 i) = none := by
        intro s2 h1 h2
        rw [whichVals_congr i h1 h2]
        exact hnone
      by_cases hext : s.externalCurr i = true
      · rw [getStoredF_ext hm hv ht hext] at h
        rw [finishStored_default] at h
        · simp only [Except.ok.injEq, Prod.mk.injEq] at h
          exact h.1.symm
        · refine hW _ ?_ ?_
          · rw [(popFrameIf_fields _).1, (setWant_fields w i _).2.2.2.1,
              (pushFrameIf_fields s).2.2.2.1]
          · rw [(popFrameIf_fields _).2.1, (setWant_fields w i _).2.2.2.2.1,
              (pushFrameIf_fields s).2.2.2.2.1]
      · have hextf : s.externalCurr i = false := by
          rwa [Bool.not_eq_true] at hext
        cases hr : getF fuel (setWant w i (pushFrameIf s)) ty i loc with
        | error e =>
          rw [getStoredF_force_err hm hv ht hextf hr] at h
          exact absurd h (by simp)
        | ok p =>
          obtain ⟨v0, s3⟩ := p
          rw [getStoredF_force_ok hm hv ht hextf hr] at h
          have hpres3 : Pres (setWant w i (pushFrameIf s)) s3 :=
            (getF_ok_spec fuel _ ty i loc v0 s3 hr).1
          rw [finishStored_default] at h
          · simp only [Except.ok.injEq, Prod.mk.injEq] at h
            exact h.1.symm
          · refine hW _ ?_ ?_
            · rw [(popFrameIf_fields _).1, (pres_setExt i false s3).oldVals,
                hpres3.oldVals, (setWant_fields w i _).2.2.2.1,
                (pushFrameIf_fields s).2.2.2.1]
            · rw [(popFrameIf_fields _).2.1,
                (pres_setExt i false s3).olderVals, hpres3.olderVals,
                (setWant_fields w i _).2.2.2.2.1,
                (pushFrameIf_fields s).2.2.2.2.1]

/-- After a successful `get` that staged its value (old tracking armed) and
a single `shift`, `getOld` at the same id and location returns the value the
`get` returned. -/
theorem getOld_after_shift (fuel fuel2 : Nat) (s : Store) (ty i : Nat)
    (loc : Location) (v : Int) (s1 : Store) (hm : s.mapperAt i = none)
    (hwant : s.wantOld i = true) (h : getF fuel s ty i loc = .ok (v, s1)) :
    ∃ s2, getOldF (fuel2 + 1) (shiftOp s1) ty i loc = .ok (v, s2) := by
  obtain ⟨vs, hv, htyok, hext1, hstage⟩ :=
    getF_ok_stage fuel s ty i loc v s1 hm h
  have hpres1 : Pres s s1 := (getF_ok_spec fuel s ty i loc v s1 h).1
  have hstg : lmGet (lkey loc) (s1.currVals i) = some v := by
    refine hstage ?_
    rw [hwant]
    rfl
  have hmSh : (shiftOp s1).mapperAt i = none := by
    rw [mapperAt_congr (shiftOp_fields s1).1 i,
      mapperAt_congr hpres1.mappers i]
    exact hm
  have hvSh : (shiftOp s1).valuerAt i = some vs := by
    rw [valuerAt_congr (shiftOp_fields s1).2.1 i,
      valuerAt_congr hpres1.valuers i]
    exact hv
  have herrSh : (shiftOp s1).errcheck = s.errcheck := by
    rw [(shiftOp_fields s1).2.2.2.1, hpres1.errcheck]
  have htSh : ¬((shiftOp s1).errcheck = true ∧ ty ≠ vs.ty) := by
    rw [herrSh]
    rintro ⟨he, hne⟩
    exact hne (htyok he)
  have hextSh : (shiftOp s1).externalCurr i = true := by
    rw [(shiftOp_fields s1).2.2.1]
    exact hext1
  have hfound : lmGet (lkey loc)
      (whichVals false
        (popFrameIf (setWant false i (pushFrameIf (shiftOp s1)))) i) =
      some v := by
    have e1 : ∀ s0 : Store, whichVals false s0 i = s0.oldVals i := by
      intro s0
      simp [whichVals]
    rw [e1, (popFrameIf_fields _).1, (setWant_fields false i _).2.2.2.1,
      (pushFrameIf_fields _).2.2.2.1, (shiftOp_fields s1).2.2.2.2.2.2.1]
    exact hstg
  refine ⟨popFrameIf (setWant false i (pushFrameIf (shiftOp s1))), ?_⟩
  rw [getOldF, getStoredF_ext hmSh hvSh htSh hextSh,
    finishStored_found hfound]

/-- `getOld`/`getOlder` evaluate their forced current computation inside a
freshly pushed in-flight frame, so they succeed even when the requested id
is already a member of the caller's top frame. -/
theorem getOld_fresh_frame (fuel : Nat) (s : Store) (ty i : Nat)
    (loc : Location) (vs : VSpec) (f : Location → Int)
    (hm : s.mapperAt i = none) (hv : s.valuerAt i = some vs)
    (hb : vs.body = .func f) (hty : ty = vs.ty) :
    ∃ v s', getOldF (fuel + 2) s ty i loc = .ok (v, s') := by
  have ht : ¬(s.errcheck = true ∧ ty ≠ vs.ty) := fun hc => hc.2 hty
  by_cases hext : s.externalCurr i = true
  · rw [getOldF, getStoredF_ext hm hv ht hext]
    obtain ⟨v, s4, hfin⟩ := finishStored_isOk false i loc false vs _
    exact ⟨v, s4, hfin⟩
  · have hextf : s.externalCurr i = false := by
      rwa [Bool.not_eq_true] at hext
    have hmS2 : (setWant false i (pushFrameIf s)).mapperAt i = none := by
      rw [mapperAt_congr (setWant_fields false i _).1 i,
        mapperAt_congr (pushFrameIf_fields s).1 i]
      exact hm
    have hvS2 : (setWant false i (pushFrameIf s)).valuerAt i = some vs := by
      rw [valuerAt_congr (setWant_fields false i _).2.1 i,
        valuerAt_congr (pushFrameIf_fields s).2.1 i]
      exact hv
    have hcyS2 : ¬((setWant false i (pushFrameIf s)).errcheck = true ∧
        i ∈ (setWant false i (pushFrameIf s)).cycleTop) := by
      rintro ⟨he, hmem⟩
      have he0 : s.errcheck = true := by
        rw [← (pushFrameIf_fields s).2.2.2.2.2.2.1,
          ← (setWant_fields false i (pushFrameIf s)).2.2.2.2.2.2.1]
        exact he
      rw [(setWant_cycle false i _).1, pushFrameIf_cycleTop s he0] at hmem
      exact absurd hmem (List.not_mem_nil i)
    have htS2 : ¬((setWant false i (pushFrameIf s)).errcheck = true ∧
        ty ≠ vs.ty) := fun hc => hc.2 hty
    have hrun : getF (fuel + 1) (setWant false i (pushFrameIf s)) ty i loc =
        .ok (f loc, postState i (lkey loc) (f loc)
          (logInvoke i (pushTopIf i (setWant false i (pushFrameIf s))))) := by
      rw [getF_func hmS2 hvS2 hcyS2 htS2 hb, getPost_eq]
    rw [getOldF, getStoredF_force_ok hm hv ht hextf hrun]
    obtain ⟨v, s4, hfin⟩ := finishStored_isOk false i loc false vs _
    exact ⟨v, s4, hfin⟩

theorem idLookup_idsInsert (k : String) (v : Nat) :
    ∀ l : List (String × Nat), idLookup k (idsInsert k v l) = some v := by
  intro l
  induction l with
  | nil => simp [idsInsert, idLookup]
  | cons p rest ih =>
    obtain ⟨k', v'⟩ := p
    rw [idsInsert]
    by_cases h : k' = k
    · rw [if_pos h, idLookup, if_pos rfl]
    · rw [if_neg h, idLookup, if_neg h, ih]

theorem getD_append_left {α : Type} (l l2 : List α) (d : α) (j : Nat)
    (h : j < l.length) : (l ++ l2).getD j d = l.getD j d := by
  simp [List.getD, List.getElem?_append_left h]

/-- Claim C1 (amended): (a) if old tracking was armed for a registered
(non-mapper) value, a successful `get` at a location followed by a single
`shift` makes `getOld` at that id and location return exactly the value the
`get` returned; (b) whenever the old-value map holds no entry for the id
and location, a successful `getOld` returns the valuer's `initialOld`; (c)
whenever the older-value map holds no entry, a successful `getOlder`
returns the valuer's `initialOlder`.  (The claim's phrasing "no get in the
prior frame" is weakened to map emptiness because `shift` rotates the
pre-call older map back into the current map instead of clearing it, see
the counterexample.) -/
theorem c1_old_values_after_shift :
    (∀ (fuel fuel2 : Nat) (s : Store) (ty i : Nat) (loc : Location)
      (v : Int) (s1 : Store), s.mapperAt i = none → s.wantOld i = true →
      getF fuel s ty i loc = .ok (v, s1) →
      ∃ s2, getOldF (fuel2 + 1) (shiftOp s1) ty i loc = .ok (v, s2)) ∧
    (∀ (fuel : Nat) (s : Store) (ty i : Nat) (loc : Location) (vs : VSpec)
      (v : Int) (s' : Store), s.mapperAt i = none →
      s.valuerAt i = some vs → lmGet (lkey loc) (s.oldVals i) = none →
      getOldF fuel s ty i loc = .ok (v, s') → v = vs.iOld loc) ∧
    (∀ (fuel : Nat) (s : Store) (ty i : Nat) (loc : Location) (vs : VSpec)
      (v : Int) (s' : Store), s.mapperAt i = none →
      s.valuerAt i = some vs → lmGet (lkey loc) (s.olderVals i) = none →
      getOlderF fuel s ty i loc = .ok (v, s') → v = vs.iOlder loc) := by
  refine ⟨getOld_after_shift, ?_, ?_⟩
  · intro fuel s ty i loc vs v s' hm hv hnone h
    have hw : lmGet (lkey loc) (whichVals false s i) = none := by
      simpa [whichVals] using hnone
    simpa using getStored_default_val fuel s false ty i loc false vs v s'
      hm hv hw h
  · intro fuel s ty i loc vs v s' hm hv hnone h
    have hw : lmGet (lkey loc) (whichVals true s i) = none := by
      simpa [whichVals] using hnone
    simpa using getStored_default_val fuel s true ty i loc true vs v s'
      hm hv hw h

/-- Witness for C1 on the S6-style store: register a constant-42 value,
arm old tracking, `get`, `shift`, `getOld` returns 42. -/
theorem c1_old_values_after_shift_witness :
    ∃ s2, getOldF 1 (shiftOp qsGot) 0 0 qLoc = .ok (42, s2) :=
  (c1_old_values_after_shift).1 5 0 qsArm 0 0 qLoc 42 qsGot rfl rfl rfl

/-- Counterexample for C1 as stated: a single `get` in frame 0 followed by
four `shift`s with no further gets.  No `get` occurred at the location in
the prior frame, yet `getOld` returns the frame-0 value 42 instead of the
valuer's `initialOld` value 7, because `shift`'s double swap rotates the
stale older map back through the current map into the old map. -/
theorem c1_stale_old_counterexample :
    resVal (getOldF 1 (shiftOp (shiftOp (shiftOp (shiftOp qsGot))))
      0 0 qLoc) = some 42 ∧ qVS.iOld qLoc = 7 :=
  ⟨rfl, rfl⟩

/-- Claim C2 evaluation at the failing input: `shift` is a cyclic rotation.
After three staged frames the current-value map of the shifted store equals
the pre-call older map — it still holds the stale value 42 instead of being
empty — while the other two rotations and the one-shift-hook-per-valuer
count behave as claimed. -/
theorem c2_shift_rotation_bug :
    (shiftOp qsS2).olderVals = qsS2.oldVals ∧
    (shiftOp qsS2).oldVals = qsS2.currVals ∧
    (shiftOp qsS2).currVals = qsS2.olderVals ∧
    lmGet (lkey qLoc) ((shiftOp qsS2).currVals 0) = some 42 ∧
    (shiftOp qsS2).shiftCounts = [3] :=
  ⟨rfl, rfl, rfl, rfl, rfl⟩

/-- Claim C4: with error checking on, (a) a `get` for a non-mapper id
already present in the top in-flight frame fails with the cyclic-dependency
error naming the reused value and the frame members; (b) every valuer
invocation recorded during a successful `get` happened with its id pushed
into the top frame, and the frame is restored on return; (c) `getOld`
evaluates its forced current computation in a freshly opened frame, so it
succeeds even when the id is already in the caller's top frame; (d) in the
S7 chain p1→p2→p3→p1, `get(p1)` reports the cycle `p1,p2,p3`. -/
theorem c4_cycle_guard :
    (∀ (fuel ty : Nat) (s : Store) (i : Nat) (loc : Location) (vs : VSpec),
      s.errcheck = true → s.mapperAt i = none → s.valuerAt i = some vs →
      i ∈ s.cycleTop →
      getF (fuel + 1) s ty i loc =
        .error (.cyclicDep (s.nameAt i) (s.cycleTop.map s.nameAt))) ∧
    (∀ (fuel : Nat) (s : Store) (ty i : Nat) (loc : Location) (v : Int)
      (s' : Store), getF fuel s ty i loc = .ok (v, s') →
      s'.cycleTop = s.cycleTop ∧ s'.cycleRest = s.cycleRest ∧
      (s.errcheck = true →
        ∀ e ∈ s'.invokeLog, e ∈ s.invokeLog ∨ e.2 = true)) ∧
    (∀ (fuel : Nat) (s : Store) (ty i : Nat) (loc : Location) (vs : VSpec)
      (f : Location → Int), s.errcheck = true → s.mapperAt i = none →
      s.valuerAt i = some vs → vs.body = .func f → ty = vs.ty →
      i ∈ s.cycleTop →
      ∃ v s', getOldF (fuel + 2) s ty i loc = .ok (v, s')) ∧
    resErr (getF 10 s7store 0 0 qLoc) =
      some (.cyclicDep ("p1") [("p1"), ("p2"), ("p3")]) := by
  refine ⟨?_, ?_, ?_, rfl⟩
  · intro fuel ty s i loc vs herr hm hv hin
    exact getF_cyclic hm hv herr hin fuel ty loc
  · intro fuel s ty i loc v s' h
    obtain ⟨_, h2, h3, h4⟩ := getF_ok_spec fuel s ty i loc v s' h
    exact ⟨h2, h3, h4⟩
  · intro fuel s ty i loc vs f _ hm hv hb hty _
    exact getOld_fresh_frame fuel s ty i loc vs f hm hv hb hty

/-- Witness for C4: `get(p1)` with p1 already in the top frame reports the
cycle, while `getOld(p1)` in the same situation (constant valuer store)
still succeeds thanks to the fresh frame. -/
theorem c4_cycle_guard_witness :
    getF 3 (pushTop 0 s7store) 0 0 qLoc =
      .error (.cyclicDep ("p1") [("p1")]) ∧
    (∃ v s', getOldF 2 (pushTop 0 qsErrAdd) 0 0 qLoc = .ok (v, s')) := by
  constructor
  · exact (c4_cycle_guard).1 2 0 (pushTop 0 s7store) 0 qLoc (depVS 1)
      rfl rfl rfl (by decide)
  · exact (c4_cycle_guard).2.2.1 0 (pushTop 0 qsErrAdd) 0 0 qLoc qVS
      (fun _ => 42) rfl rfl rfl rfl rfl (by decide)

/-- Claim C7 (amended): re-registering an existing name does not fail; it
allocates the next id, rebinds the name to that new id, and leaves the
previously registered valuer and name in place at the old id. -/
theorem c7_add_name_rebinding (s : Store) (name : String) (q : Option VSpec)
    (m : Option (Location → Nat)) (own : Bool) (j : Nat)
    (_hj : idLookup name s.ids = some j) (hjv : j < s.valuers.length)
    (hjn : j < s.names.length) :
    (addOp s name q m own).1 = s.valuers.length ∧
    idLookup name (addOp s name q m own).2.ids = some s.valuers.length ∧
    j ≠ (addOp s name q m own).1 ∧
    (addOp s name q m own).2.valuerAt j = s.valuerAt j ∧
    (addOp s name q m own).2.nameAt j = s.nameAt j := by
  refine ⟨rfl, idLookup_idsInsert name s.valuers.length s.ids, ?_, ?_, ?_⟩
  · intro heq
    rw [heq] at hjv
    exact absurd rfl (Nat.ne_of_lt hjv)
  · show (s.valuers ++ [q]).getD j none = s.valuers.getD j none
    exact getD_append_left s.valuers [q] none j hjv
  · show (s.names ++ [name]).getD j noName = s.names.getD j noName
    exact getD_append_left s.names [name] noName j hjn

/-- Witness for C7: re-adding name "x" to a one-value store. -/
theorem c7_add_name_rebinding_witness :
    (addOp c7s1 ("x") (some qVS2) none false).1 = c7s1.valuers.length ∧
    idLookup ("x") (addOp c7s1 ("x") (some qVS2) none false).2.ids =
      some c7s1.valuers.length ∧
    0 ≠ (addOp c7s1 ("x") (some qVS2) none false).1 ∧
    (addOp c7s1 ("x") (some qVS2) none false).2.valuerAt 0 =
      c7s1.valuerAt 0 ∧
    (addOp c7s1 ("x") (some qVS2) none false).2.nameAt 0 = c7s1.nameAt 0 :=
  c7_add_name_rebinding c7s1 ("x") (some qVS2) none false 0 rfl
    (by decide) (by decide)

/-- Counterexample for C7 as stated: re-adding the already registered name
"x" raises no error (the operation is total and returns the fresh id 1),
and the name-to-id binding is changed to the new id — `id("x")` is now 1,
not 0 — although the old valuer stays stored at id 0. -/
theorem c7_name_conflict_counterexample :
    (addOp c7s1 ("x") (some qVS2) none false).1 = 1 ∧
    idLookup ("x") (addOp c7s1 ("x") (some qVS2) none false).2.ids =
      some 1 ∧
    (addOp c7s1 ("x") (some qVS2) none false).2.valuerAt 0 = some qVS :=
  ⟨rfl, rfl, rfl⟩

/-- Claim C8 (amended): mapper resolution in `get` has no depth limit and no
MapperLoop error: each step simply recurses on the mapped id, so a mapper
chain that never reaches a non-mapper id never terminates — under any
finite recursion bound it exhausts the bound (the `outOfFuel` marker,
modelling the unbounded C++ recursion). -/
theorem c8_mapper_chain_diverges (s : Store) (i ty : Nat) (loc : Location)
    (m : Location → Nat) (hm : s.mapperAt i = some m)
    (hself : ∀ l, m l = i) :
    ∀ fuel, getF fuel s ty i loc = .error .outOfFuel := by
  intro fuel
  induction fuel with
  | zero => rfl
  | succ fuel ih =>
    rw [getF_mapper hm, hself loc, ih]

/-- Witness for C8 on the self-mapping store. -/
theorem c8_mapper_chain_diverges_witness :
    getF 64 qsMap 0 0 qLoc = .error .outOfFuel :=
  c8_mapper_chain_diverges qsMap 0 0 qLoc (fun _ => 0) rfl (fun _ => rfl) 64

set_option maxRecDepth 8192 in
/-- Counterexample for C8 as stated: for the self-mapping id, resolution
neither reaches a non-mapper id nor produces any MapperLoop-style error at
the spec's example depth 64 (or far beyond it); the recursion just keeps
consuming fuel. -/
theorem c8_no_mapper_loop_counterexample :
    resErr (getF 64 qsMap 0 0 qLoc) = some .outOfFuel ∧
    resVal (getF 64 qsMap 0 0 qLoc) = none ∧
    resErr (getF 1000 qsMap 0 0 qLoc) = some .outOfFuel :=
  ⟨rfl, rfl, rfl⟩

end Spec2Proof

